import Mathlib

/-!
Verification of `scripts/generate_stats.py` (ANGLE dEQP stats reporting script).

The script is shallowly embedded: the pure text-parsing cores are translated to
Lean functions returning `Except PyErr _` (Python exceptions become error
values), and the external surfaces (the `bb` command-line tool and the Google
Sheets API) are modelled by an oracle structure `World`.  Every effectful
function additionally returns the list of external `Event`s it performs, in
order, so that temporal properties of the pipeline can be stated.
-/

/-! ### Python string semantics helpers -/

/-- Boolean prefix test on character lists. -/
def prefixOfB : List Char → List Char → Bool
  | [], _ => true
  | _ :: _, [] => false
  | a :: as, b :: bs => a = b && prefixOfB as bs

/-- Boolean contiguous-substring test on character lists. -/
def infixOfB (needle : List Char) : List Char → Bool
  | [] => needle.isEmpty
  | l@(_ :: cs) => prefixOfB needle l || infixOfB needle cs

/-- Python `needle in haystack` for strings: contiguous substring test. -/
def pyIn (needle haystack : String) : Bool :=
  infixOfB needle.toList haystack.toList

/-- The whitespace characters `str.strip()` removes. -/
def isPySpace (c : Char) : Bool :=
  c = ' ' || c = '\t' || c = '\n' || c = '\r' || c = '\x0b' || c = '\x0c'

/-- Python `str.strip()`. -/
def pyStrip (s : String) : String :=
  String.mk (((s.toList.dropWhile isPySpace).reverse.dropWhile isPySpace).reverse)

/-- Fuel-driven worker for `pySplit` (the fuel, one unit per character, makes
the recursion structural; it never runs out when initialised with the input
length). -/
def splitOnCharsAux (sep : List Char) : Nat → List Char → List Char → List (List Char)
  | _, [], acc => [acc.reverse]
  | 0, l, acc => [acc.reverse ++ l]
  | fuel + 1, c :: cs, acc =>
    if prefixOfB sep (c :: cs) then
      acc.reverse :: splitOnCharsAux sep fuel ((c :: cs).drop sep.length) []
    else splitOnCharsAux sep fuel cs (c :: acc)

/-- Python `s.split(sep)` for a nonempty separator: split at every
left-to-right non-overlapping occurrence, keeping empty pieces. -/
def pySplit (s sep : String) : List String :=
  (splitOnCharsAux sep.toList s.toList.length s.toList []).map (fun l => String.mk l)

/-- Worker for `pySplitWs`: split at whitespace runs, dropping empty pieces. -/
def splitWsChars : List Char → List Char → List String
  | [], acc => if acc = [] then [] else [String.mk acc.reverse]
  | c :: cs, acc =>
    if isPySpace c then
      if acc = [] then splitWsChars cs []
      else String.mk acc.reverse :: splitWsChars cs []
    else splitWsChars cs (c :: acc)

/-- Python `s.split()` (no separator): whitespace runs, no empty pieces. -/
def pySplitWs (s : String) : List String :=
  splitWsChars s.toList []

/-- Python `s.replace(t, r)` for a nonempty pattern `t`. -/
def pyReplace (s t r : String) : String :=
  String.intercalate r (pySplit s t)

/-- Auxiliary worker for `pySplitlines`: splits at newline characters. -/
def splitLinesAux : List Char → List Char → List String
  | [], acc => if acc = [] then [] else [String.mk acc.reverse]
  | c :: cs, acc =>
    if c = '\n' then String.mk acc.reverse :: splitLinesAux cs []
    else splitLinesAux cs (c :: acc)

/-- Python `str.splitlines()` (restricted to `\n` separators, which is what the
`bb` tool emits): no trailing empty line is produced. -/
def pySplitlines (s : String) : List String :=
  splitLinesAux s.toList []

/-- Python `s.split(sep, 1)`: split at the first occurrence of `sep` only. -/
def pySplitFirst (s sep : String) : List String :=
  match pySplit s sep with
  | [] => [s]
  | [x] => [x]
  | x :: rest => [x, String.intercalate sep rest]

/-- Digit run to a natural number; `none` unless the list is a nonempty
all-digit run. -/
def digitsToNat (l : List Char) : Option Nat :=
  if l ≠ [] ∧ l.all Char.isDigit then
    some (l.foldl (fun a c => a * 10 + (c.toNat - 48)) 0)
  else none

/-- Python 2 `int(s)` on a string: strips surrounding whitespace, allows one
leading sign, then requires a nonempty digit run.  `none` models `ValueError`. -/
def pyInt? (s : String) : Option Int :=
  match (pyStrip s).toList with
  | '+' :: ds => (digitsToNat ds).map Int.ofNat
  | '-' :: ds => (digitsToNat ds).map (fun n => -(n : Int))
  | ds => (digitsToNat ds).map Int.ofNat

/-- UTF-8 bytes of one character (Python 2 strings are byte strings; the byte
view of our Lean strings is their UTF-8 encoding). -/
def utf8Bytes (c : Char) : List Nat :=
  let n := c.toNat
  if n < 128 then [n]
  else if n < 2048 then [192 + n / 64, 128 + n % 64]
  else if n < 65536 then [224 + n / 4096, 128 + (n / 64) % 64, 128 + n % 64]
  else [240 + n / 262144, 128 + (n / 4096) % 64, 128 + (n / 64) % 64, 128 + n % 64]

/-- Characters `urllib.quote` leaves unescaped with the default `safe='/'`:
letters, digits, `_.-` and `/`. -/
def alwaysSafe (c : Char) : Bool :=
  c.isAlphanum || c = '_' || c = '.' || c = '-' || c = '/'

/-- Uppercase hexadecimal digit, as `urllib.quote` produces. -/
def hexDigit (n : Nat) : Char :=
  if n < 10 then Char.ofNat (48 + n) else Char.ofNat (55 + n)

/-- Percent-encoding of a single byte under `urllib.quote`. -/
def quoteByte (b : Nat) : String :=
  let c := Char.ofNat b
  if alwaysSafe c then String.singleton c
  else String.mk ['%', hexDigit (b / 16), hexDigit (b % 16)]

/-- Python 2 `urllib.quote(s)` with the default safe set. -/
def urllib_quote (s : String) : String :=
  String.join ((s.toList.flatMap utf8Bytes).map quoteByte)

/-! ### Association-list model of Python dictionaries -/

/-- Lookup in an insertion-ordered dictionary. -/
def dictGet {α : Type} (d : List (String × α)) (k : String) : Option α :=
  (d.find? (fun p => p.1 = k)).map (·.2)

/-- Python `d[k] = v`: overwrite in place when the key exists, append otherwise. -/
def dictSet {α : Type} (d : List (String × α)) (k : String) (v : α) :
    List (String × α) :=
  if (d.find? (fun p => p.1 = k)).isSome then
    d.map (fun p => if p.1 = k then (k, v) else p)
  else d ++ [(k, v)]

/-- Pointwise update of a total map (used for the `headers` dictionary, whose
domain is the sheet names). -/
def updMap (h : String → List String) (k : String) (v : List String) :
    String → List String :=
  fun x => if x = k then v else h x

/-! ### Global constants of the script -/

/-- The 13 hard-coded bot names (`BOT_NAMES`). -/
def BOT_NAMES : List String := [
    "Win10 FYI dEQP Release (NVIDIA)",
    "Win10 FYI dEQP Release (Intel HD 630)",
    "Win7 FYI dEQP Release (AMD)",
    "Win7 FYI x64 dEQP Release (NVIDIA)",
    "Mac FYI dEQP Release Intel",
    "Mac FYI dEQP Release AMD",
    "Linux FYI dEQP Release (Intel HD 630)",
    "Linux FYI dEQP Release (NVIDIA)",
    "Android FYI dEQP Release (Nexus 5X)",
    "Android FYI 32 dEQP Vk Release (Pixel XL)",
    "Android FYI 64 dEQP Vk Release (Pixel XL)",
    "Android FYI 32 dEQP Vk Release (Pixel 2)",
    "Android FYI 64 dEQP Vk Release (Pixel 2)"]

/-- `BOT_NAME_PREFIX` of the source (renamed for this file). -/
def BOT_NAME_PREFIX_C : String := "chromium/ci/"

/-- `BUILD_LINK_PREFIX` of the source (renamed for this file). -/
def BUILD_LINK_PREFIX_C : String := "https://ci.chromium.org/p/chromium/builders/ci/"

/-- `REQUIRED_COLUMNS`. -/
def REQUIRED_COLUMNS : List String :=
  ["build_link", "time", "date", "revision", "angle_revision"]

/-- `INFO_TAG`. -/
def INFO_TAG : String := "*RESULT"

/-- The argv of `bb ls '<botname>' -n 1 -status success -A` run by
`get_latest_success_build_info`. -/
def bbLsArgs (bot_name : String) : List String :=
  ["bb", "ls", bot_name, "-n", "1", "-status", "success", "-A"]

/-! ### Data model -/

/-- A cell value: step statistics are either accumulated integers or
concatenated strings; bot-level values are strings. -/
inductive CellVal : Type
  | intV (i : Int)
  | strV (s : String)
deriving DecidableEq, Repr

/-- A parsed step-info record (`step_info` dict). -/
abbrev StepInfo : Type := List (String × CellVal)

/-- Python exceptions the script can raise. -/
inductive PyErr : Type
  | valueError (msg : String)
  | indexError
  | typeError
  | keyError
  | attributeError
  | exception (msg : String)
deriving DecidableEq, Repr

/-- Mutable state of the line loop of `get_latest_success_build_info`
(the `info` dict before the final `build_name` check). -/
structure BInfoState : Type where
  build_name : Option String
  build_link : Option String
  time : Option String
  date : Option String
  angle_revision : Option String
  revision : Option String
deriving DecidableEq, Repr

/-- The empty `info` dict. -/
def initBInfo : BInfoState := ⟨none, none, none, none, none, none⟩

/-- The per-bot record built by `get_bot_info`.  Step entries are stored beside
the fixed keys; the Python dict would let a step name collide with one of the
fixed keys, which cannot happen for the `angle_`-prefixed step names the
script selects. -/
structure BotInfo : Type where
  build_name : String
  build_link : String
  time : Option String
  date : Option String
  angle_revision : Option String
  revision : Option String
  step_names : List String
  steps : List (String × Option StepInfo)
deriving DecidableEq, Repr

/-- The spreadsheet object fetched by `spreadsheets.get()`: only the sheet
titles (`spreadsheet['sheets'][i]['properties']['title']`) are relevant. -/
structure Spreadsheet : Type where
  sheets : List String
deriving DecidableEq, Repr

/-- External actions of one run, in order. -/
inductive Event : Type
  | bbLs (bot : String)
  | bbGetSteps (build : String)
  | bbLog (build step : String)
  | logError
  | logWarning
  | sheetsGet
  | addSheets (names : List String)
  | headersGet (names : List String)
  | headersUpdate (data : List (String × List String))
  | appendRow (sheet : String) (row : List CellVal)
deriving DecidableEq, Repr

/-- Oracle for the external world: outputs of the `bb` invocations (as
`(stdout, stderr)` pairs), today's date string, and the outcomes of the
Sheets API calls.  `sheets_get = .ok none` models a falsy response from
`spreadsheets.get()`.  `headers_get` yields, per sheet name, the first row of
the `A1:Z` range when the range has values. -/
structure World : Type where
  auth : Except String Unit
  bb_ls : String → String × String
  bb_steps : String → String × String
  bb_log : String → String → String × String
  today : String
  sheets_get : Except String (Option Spreadsheet)
  batch_update : Except String Unit
  headers_get : Except String (String → Option (List String))
  values_update : Except String Unit
  values_append : String → List CellVal → Except String Unit

/-- Whether an `Except` result is a success. -/
def okB {ε α : Type} : Except ε α → Bool
  | .ok _ => true
  | .error _ => false

/-! ### `get_latest_success_build_info` -/

/-- First `if` of the line loop: on the line that first appears while
`'build_name' not in info`, take `line.strip().split("'")[1]` as the build
name and derive the build link from the part after `chromium/ci/`.
`IndexError` when a `[1]` index does not exist. -/
def processBuildName (line : String) (st : BInfoState) : Except PyErr BInfoState :=
  if st.build_name.isNone then
    match (pySplit (pyStrip line) "'").get? 1 with
    | none => .error .indexError
    | some bn =>
      match (pySplit bn BOT_NAME_PREFIX_C).get? 1 with
      | none => .error .indexError
      | some rest =>
        .ok { st with build_name := some bn,
                      build_link := some (BUILD_LINK_PREFIX_C ++ urllib_quote rest) }
  else .ok st

/-- One-digit-hour attempt of the regex `[0-9]{1,2}:[0-9]{2}:[0-9]{2}` at the
current position; returns the match length. -/
def matchTime1 : List Char → Option Nat
  | a :: ':' :: c :: d :: ':' :: e :: f :: _ =>
    if a.isDigit && c.isDigit && d.isDigit && e.isDigit && f.isDigit then some 7
    else none
  | _ => none

/-- Greedy match of `[0-9]{1,2}:[0-9]{2}:[0-9]{2}` at the current position:
two-digit hour first, then one digit. -/
def matchTimeLen (l : List Char) : Option Nat :=
  match l with
  | a :: b :: ':' :: c :: d :: ':' :: e :: f :: _ =>
    if a.isDigit && b.isDigit && c.isDigit && d.isDigit && e.isDigit && f.isDigit
    then some 8
    else matchTime1 l
  | _ => matchTime1 l

/-- Leftmost match of the time regex (`re.findall(...)[0]`, first element). -/
def findTimeAux : List Char → Option String
  | [] => none
  | l@(_ :: rest) =>
    match matchTimeLen l with
    | some n => some (String.mk (l.take n))
    | none => findTimeAux rest

/-- Leftmost `[0-9]{1,2}:[0-9]{2}:[0-9]{2}` match in a string. -/
def findTimeStr (s : String) : Option String :=
  findTimeAux s.toList

/-- `if 'Created' in line:` — parse the time before the first comma and stamp
today's date.  `IndexError` models `re.findall(...)[0]` on no match. -/
def processCreated (today line : String) (st : BInfoState) : Except PyErr BInfoState :=
  if pyIn "Created" line then
    match findTimeStr ((pySplit line ",").headD "") with
    | none => .error .indexError
    | some t => .ok { st with time := some t, date := some today }
  else .ok st

/-- `if 'got_angle_revision' in line:` — `filter(str.isalnum, line.split(':')[1])`. -/
def processAngleRev (line : String) (st : BInfoState) : Except PyErr BInfoState :=
  if pyIn "got_angle_revision" line then
    match (pySplit line ":").get? 1 with
    | none => .error .indexError
    | some v => .ok { st with angle_revision := some (String.mk (v.toList.filter Char.isAlphanum)) }
  else .ok st

/-- `if '"revision"' in line:` — `filter(str.isalnum, line.split(':')[1])`. -/
def processRevision (line : String) (st : BInfoState) : Except PyErr BInfoState :=
  if pyIn "\"revision\"" line then
    match (pySplit line ":").get? 1 with
    | none => .error .indexError
    | some v => .ok { st with revision := some (String.mk (v.toList.filter Char.isAlphanum)) }
  else .ok st

/-- One iteration of the line loop of `get_latest_success_build_info`: the four
independent `if`s in source order. -/
def processLine (today : String) (st : BInfoState) (line : String) :
    Except PyErr BInfoState :=
  match processBuildName line st with
  | .error e => .error e
  | .ok st1 =>
    match processCreated today line st1 with
    | .error e => .error e
    | .ok st2 =>
      match processAngleRev line st2 with
      | .error e => .error e
      | .ok st3 => processRevision line st3

/-- The whole line loop. -/
def runLines (today : String) : BInfoState → List String → Except PyErr BInfoState
  | st, [] => .ok st
  | st, l :: ls =>
    match processLine today st l with
    | .error e => .error e
    | .ok st' => runLines today st' ls

/-- The final record returned by `get_latest_success_build_info` on success. -/
structure BInfo : Type where
  build_name : String
  build_link : String
  time : Option String
  date : Option String
  angle_revision : Option String
  revision : Option String
deriving DecidableEq, Repr

/-- Pure core of `get_latest_success_build_info`, applied to the `(out, err)`
pair produced by `bb ls` and today's date.  Follows the source: error on
nonempty stderr, empty stdout, stdout without `SUCCESS`; then the line loop;
then the final `build_name` presence check. -/
def get_latest_success_build_info_core (bot_name err out today : String) :
    Except PyErr BInfo :=
  if err ≠ "" then
    .error (.valueError ("Unexpected error from bb ls: '" ++ err ++ "'"))
  else if out = "" then
    .error (.valueError ("Unexpected empty result from bb ls of bot '" ++ bot_name ++ "'"))
  else if pyIn "SUCCESS" out = false then
    .error (.valueError ("Unexpected result from bb ls: '" ++ out ++ "'"))
  else
    match runLines today initBInfo (pySplitlines out) with
    | .error e => .error e
    | .ok st =>
      match st.build_name, st.build_link with
      | some bn, some bl => .ok ⟨bn, bl, st.time, st.date, st.angle_revision, st.revision⟩
      | _, _ => .error (.valueError ("Could not find build_name from bot '" ++ bot_name ++ "'"))

/-! ### `get_step_names` and `get_step_info` -/

/-- Line loop of `get_step_names`: keep lines containing `Step "angle_` and
take the part between the first two double quotes. -/
def step_names_loop : List String → Except PyErr (List String)
  | [] => .ok []
  | l :: ls =>
    if pyIn "Step \"angle_" l then
      match (pySplit l "\"").get? 1 with
      | none => .error .indexError
      | some nm => (step_names_loop ls).map (nm :: ·)
    else step_names_loop ls

/-- Pure core of `get_step_names` on the `(out, err)` of `bb get <build> -steps`. -/
def get_step_names_core (err out : String) : Except PyErr (List String) :=
  if err ≠ "" then
    .error (.valueError ("Unexpected error from bb get: '" ++ err ++ "'"))
  else step_names_loop (pySplitlines out)

/-- `['Passed', 'Failed', 'Skipped', 'Not Supported', 'Exception', 'Crashed']`. -/
def PARTIAL_SUM_KEYS : List String :=
  ["Passed", "Failed", "Skipped", "Not Supported", "Exception", "Crashed"]

/-- Python `int(v)` applied to a stored cell value: an int passes through, a
string must parse (otherwise `ValueError`). -/
def pyIntOfCell (v : CellVal) : Except PyErr Int :=
  match v with
  | .intV n => .ok n
  | .strV s =>
    match pyInt? s with
    | some n => .ok n
    | none => .error (.valueError ("invalid literal for int() with base 10: '" ++ s ++ "'"))

/-- `[int(step_info[key]) for key in partial_sum_keys if key in step_info]`. -/
def partialSumValues (si : StepInfo) : List String → Except PyErr (List Int)
  | [] => .ok []
  | k :: ks =>
    match dictGet si k with
    | none => partialSumValues si ks
    | some v =>
      match pyIntOfCell v with
      | .error e => .error e
      | .ok n => (partialSumValues si ks).map (n :: ·)

/-- `validate_step_info` (the `build_name`/`step_name` arguments only feed the
warning text, which is not modelled): `False` on an empty record; when a
`Total` key is present the partial sums are converted with `int()` (which can
raise) but a mismatch only logs a warning; otherwise `True`. -/
def validate_step_info (step_info : StepInfo) : Except PyErr Bool :=
  if step_info = [] then .ok false
  else if (dictGet step_info "Total").isSome then
    match partialSumValues step_info PARTIAL_SUM_KEYS with
    | .error e => .error e
    | .ok _ => .ok true
  else .ok true

/-- One iteration of the `*RESULT` line loop of `get_step_info`.  The state is
the `step_info` dict plus the `append_errors` list.  An int value is summed
into the entry (`TypeError` when the entry holds a string); a non-int value is
appended to the entry as a string, capped below 50000 bytes (`TypeError` when
the entry holds an int, from `len(int)`).  A line whose tail does not split
into exactly 3 colon-separated columns is skipped with a warning. -/
def process_result_line (si : StepInfo) (ae : List String) (line : String) :
    Except PyErr (StepInfo × List String) :=
  if pyIn INFO_TAG line = false then .ok (si, ae)
  else
    match (pySplitFirst line INFO_TAG).get? 1 with
    | none => .error .indexError
    | some afterTag =>
      let line_columns := pySplit afterTag ":"
      if line_columns.length ≠ 3 then .ok (si, ae)
      else
        match line_columns.get? 1, line_columns.get? 2 with
        | some kraw, some vraw =>
          let key := pyStrip kraw
          match pyInt? vraw with
          | some n =>
            match dictGet si key with
            | none => .ok (dictSet si key (.intV n), ae)
            | some (.intV m) => .ok (dictSet si key (.intV (m + n)), ae)
            | some (.strV _) => .error .typeError
          | none =>
            match dictGet si key with
            | none => .ok (dictSet si key (.strV (pyStrip vraw)), ae)
            | some (.strV s) =>
              let append_string := "\n" ++ pyStrip vraw
              if s.utf8ByteSize + append_string.utf8ByteSize < 50000 then
                .ok (dictSet si key (.strV (s ++ append_string)), ae)
              else if key ∈ ae then .ok (si, ae)
              else .ok (si, ae ++ [key])
            | some (.intV _) => .error .typeError
        | _, _ => .error .indexError

/-- The whole `*RESULT` line loop. -/
def runResultLines (si : StepInfo) (ae : List String) :
    List String → Except PyErr (StepInfo × List String)
  | [] => .ok (si, ae)
  | l :: ls =>
    match process_result_line si ae l with
    | .error e => .error e
    | .ok (si', ae') => runResultLines si' ae' ls

/-- Pure core of `get_step_info` on the `(out, err)` of `bb log`: a nonempty
stderr logs a warning and yields `None`; otherwise the lines are parsed and
the record is validated (`None` when validation returns `False`). -/
def get_step_info_core (err out : String) : Except PyErr (Option StepInfo) :=
  if err ≠ "" then .ok none
  else
    match runResultLines [] [] (pySplitlines out) with
    | .error e => .error e
    | .ok (si, _) =>
      match validate_step_info si with
      | .error e => .error e
      | .ok true => .ok (some si)
      | .ok false => .ok none

/-! ### `get_bot_info` and the bot loop of `main` -/

/-- Per-step loop of `get_bot_info`: one `bb log` invocation per step name. -/
def runSteps (w : World) (build : String) :
    List String → List Event × Except PyErr (List (String × Option StepInfo))
  | [] => ([], .ok [])
  | s :: ss =>
    match get_step_info_core (w.bb_log build s).2 (w.bb_log build s).1 with
    | .error e => ([.bbLog build s], .error e)
    | .ok osi =>
      match runSteps w build ss with
      | (evs, r) => (.bbLog build s :: evs, r.map ((s, osi) :: ·))

/-- `get_bot_info`: latest successful build, then the step names, then each
step's parsed log. -/
def get_bot_info (w : World) (bot_name : String) :
    List Event × Except PyErr BotInfo :=
  match get_latest_success_build_info_core bot_name (w.bb_ls bot_name).2
      (w.bb_ls bot_name).1 w.today with
  | .error e => ([.bbLs bot_name], .error e)
  | .ok bi =>
    match get_step_names_core (w.bb_steps bi.build_name).2 (w.bb_steps bi.build_name).1 with
    | .error e => ([.bbLs bot_name, .bbGetSteps bi.build_name], .error e)
    | .ok names =>
      match runSteps w bi.build_name names with
      | (evs, .error e) => (.bbLs bot_name :: .bbGetSteps bi.build_name :: evs, .error e)
      | (evs, .ok steps) =>
        (.bbLs bot_name :: .bbGetSteps bi.build_name :: evs,
         .ok { build_name := bi.build_name, build_link := bi.build_link,
               time := bi.time, date := bi.date,
               angle_revision := bi.angle_revision, revision := bi.revision,
               step_names := names, steps := steps })

/-- The bot loop of `main`: every bot in the list is queried with the
`chromium/ci/` prefix; a failure is logged (`LOGGER.error`) and the bot is
skipped, a success adds the record under the unprefixed name. -/
def processBots (w : World) : List String → List Event × List (String × BotInfo)
  | [] => ([], [])
  | b :: bs =>
    match get_bot_info w (BOT_NAME_PREFIX_C ++ b), processBots w bs with
    | (ev, .ok bi), (evs, infos) => (ev ++ evs, (b, bi) :: infos)
    | (ev, .error _), (evs, infos) => (ev ++ Event.logError :: evs, infos)

/-! ### Sheets formatting -/

/-- Word characters of the regex class `\w`. -/
def isWordChar (c : Char) : Bool := c.isAlphanum || c = '_'

/-- Leftmost match of `angle\w*` in a character list
(`re.findall(r'angle\w*', step_name)[0]`). -/
def findAngle : List Char → Option (List Char)
  | [] => none
  | l@(_ :: cs) =>
    if l.take 5 = "angle".toList then
      some ("angle".toList ++ (l.drop 5).takeWhile isWordChar)
    else findAngle cs

/-- Python `' '.join(s.strip().split())`: collapse whitespace runs. -/
def normSpaces (s : String) : String :=
  String.intercalate " " (pySplitWs s)

/-- The `unneccesary_tokens` list removed from bot names. -/
def UNNECCESARY_TOKENS : List String := ["FYI", "Release", "Vk", "dEQP", "(", ")"]

/-- `format_sheet_name`: `none` models the `IndexError` raised when the step
name has no `angle\w*` match.  Otherwise the frontend/backend tokens of the
step name are put first and the cleaned bot name second. -/
def format_sheet_name (bot_name step_name : String) : Option String :=
  let bn := UNNECCESARY_TOKENS.foldl (fun b t => pyReplace b t "") bot_name
  let bn := normSpaces bn
  match findAngle step_name.toList with
  | none => none
  | some tok =>
    let step := String.mk tok
    let n1 := (if pyIn "_egl_" step then " EGL" else "")
    let n2 := n1 ++ (if pyIn "_gles2_" step then " GLES 2.0 " else "")
    let n3 := n2 ++ (if pyIn "_gles3_" step then " GLES 3.0 " else "")
    let n4 := n3 ++ (if pyIn "_gles31_" step then " GLES 3.1 " else "")
    let n5 := n4 ++ (if pyIn "_d3d9_" step then " D3D9 " else "")
    let n6 := n5 ++ (if pyIn "_d3d11" step then " D3D11 " else "")
    let n7 := n6 ++ (if pyIn "_gl_" step then " Desktop OpenGL " else "")
    let n8 := n7 ++ (if pyIn "_gles_" step then " OpenGLES " else "")
    let n9 := n8 ++ (if pyIn "_vulkan_" step then " Vulkan " else "")
    some (normSpaces n9 ++ " " ++ bn)

/-- Sheet names of one bot's steps, in step order. -/
def stepSheetNames (bot_name : String) : List String → Except PyErr (List String)
  | [] => .ok []
  | s :: ss =>
    match format_sheet_name bot_name s with
    | none => .error .indexError
    | some sn => (stepSheetNames bot_name ss).map (sn :: ·)

/-- `get_sheet_names`: all sheet names of the info struct, bots in order. -/
def get_sheet_names : List (String × BotInfo) → Except PyErr (List String)
  | [] => .ok []
  | (name, b) :: rest =>
    match stepSheetNames name b.step_names with
    | .error e => .error e
    | .ok l => (get_sheet_names rest).map (l ++ ·)

/-- `sheet_exists`: whether a sheet title occurs in the spreadsheet object. -/
def sheet_exists (spreadsheet : Spreadsheet) (step_name : String) : Bool :=
  spreadsheet.sheets.any (fun t => t = step_name)

/-- `validate_sheets`: the names that need creation, in order. -/
def validate_sheets (spreadsheet : Spreadsheet) : List String → List String
  | [] => []
  | n :: ns =>
    if sheet_exists spreadsheet n then validate_sheets spreadsheet ns
    else n :: validate_sheets spreadsheet ns

/-- The `if new_sheets: create_sheets(...)` step of `update_spreadsheet`: one
`addSheet` batch update when the list is nonempty. -/
def create_sheets_step (w : World) (new_sheets : List String) :
    List Event × Except PyErr Unit :=
  if new_sheets = [] then ([], .ok ())
  else
    match w.batch_update with
    | .ok _ => ([.addSheets new_sheets], .ok ())
    | .error m => ([.addSheets new_sheets], .error (.exception m))

/-- `get_headers`: one `values().batchGet` over the `A1:Z` ranges; a sheet
whose range has no values gets `[]`.  The Python dict keyed by the sheet names
is modelled as a total map (all lookups the script performs are at sheet
names). -/
def get_headers (w : World) (sheet_names : List String) :
    List Event × Except PyErr (String → List String) :=
  ([.headersGet sheet_names],
   match w.headers_get with
   | .error m => .error (.exception m)
   | .ok rowf => .ok (fun sn => (rowf sn).getD []))

/-! ### `update_headers` -/

/-- One `if _ not in headers[sheet_name]: headers_stale = True; append`. -/
def appendIfAbsentF (p : List String × Bool) (k : String) : List String × Bool :=
  if k ∈ p.1 then p else (p.1 ++ [k], true)

/-- Header completion for one step: the `REQUIRED_COLUMNS` loop then the
step-keys loop, threading the `headers_stale` flag. -/
def headersForStep (hdr : List String) (keys : List String) : List String × Bool :=
  keys.foldl appendIfAbsentF (REQUIRED_COLUMNS.foldl appendIfAbsentF (hdr, false))

/-- The inner (per-step) loop of `update_headers` for one bot: accumulates the
updated headers map and the `data` payload of stale sheets.  `KeyError` when a
step name is missing from the bot record, `AttributeError` when its record is
`None` (`None.keys()`). -/
def update_headers_steps (bot_name : String) (b : BotInfo)
    (hmap : String → List String) (data : List (String × List String)) :
    List String → Except PyErr ((String → List String) × List (String × List String))
  | [] => .ok (hmap, data)
  | step :: ss =>
    match format_sheet_name bot_name step with
    | none => .error .indexError
    | some sn =>
      match dictGet b.steps step with
      | none => .error .keyError
      | some none => .error .attributeError
      | some (some si) =>
        let hp := headersForStep (hmap sn) (si.map (·.1))
        update_headers_steps bot_name b (updMap hmap sn hp.1)
          (if hp.2 then data ++ [(sn, hp.1)] else data) ss

/-- The outer (per-bot) loop of `update_headers`. -/
def update_headers_pairs (hmap : String → List String)
    (data : List (String × List String)) :
    List (String × BotInfo) →
    Except PyErr ((String → List String) × List (String × List String))
  | [] => .ok (hmap, data)
  | (name, b) :: rest =>
    match update_headers_steps name b hmap data b.step_names with
    | .error e => .error e
    | .ok (hmap', data') => update_headers_pairs hmap' data' rest

/-- `update_headers`: completes the headers map and, when any sheet's headers
were stale, performs one `values().batchUpdate` with the collected data. -/
def update_headers (w : World) (hmap : String → List String)
    (info : List (String × BotInfo)) :
    List Event × Except PyErr (String → List String) :=
  match update_headers_pairs hmap [] info with
  | .error e => ([], .error e)
  | .ok (h', data) =>
    if data = [] then ([], .ok h')
    else
      match w.values_update with
      | .ok _ => ([.headersUpdate data], .ok h')
      | .error m => ([.headersUpdate data], .error (.exception m))

/-! ### `update_values` -/

/-- Bot-level lookup restricted to the five `REQUIRED_COLUMNS` keys: exactly
the values `key in info[bot_name]` can select under the conjunction with
`key in REQUIRED_COLUMNS` (membership of other bot-dict keys is irrelevant
because that conjunction fails for them). -/
def botGetReq (b : BotInfo) (key : String) : Option CellVal :=
  if key = "build_link" then some (.strV b.build_link)
  else if key = "time" then b.time.map .strV
  else if key = "date" then b.date.map .strV
  else if key = "revision" then b.revision.map .strV
  else if key = "angle_revision" then b.angle_revision.map .strV
  else none

/-- One entry of a row: the bot-level value for a required column present in
the bot record, else the step-level value, else `''`.  The step record is only
consulted when the first branch fails, as in the source (`KeyError` when the
step key is missing, `TypeError` for `key in None`). -/
def rowValue (b : BotInfo) (osi : Option (Option StepInfo)) (key : String) :
    Except PyErr CellVal :=
  if (botGetReq b key).isSome && decide (key ∈ REQUIRED_COLUMNS) then
    .ok ((botGetReq b key).getD (.strV ""))
  else
    match osi with
    | none => .error .keyError
    | some none => .error .typeError
    | some (some si) => .ok ((dictGet si key).getD (.strV ""))

/-- The values list of one sheet, in header order. -/
def buildRow (b : BotInfo) (osi : Option (Option StepInfo)) :
    List String → Except PyErr (List CellVal)
  | [] => .ok []
  | k :: ks =>
    match rowValue b osi k with
    | .error e => .error e
    | .ok v => (buildRow b osi ks).map (v :: ·)

/-- Per-step loop of `update_values` for one bot: each append is attempted;
an `append_values` failure is logged (warning) and skipped.  Errors raised
while building a row propagate. -/
def update_values_steps (w : World) (hmap : String → List String)
    (bot_name : String) (b : BotInfo) : List String → List Event × Except PyErr Unit
  | [] => ([], .ok ())
  | s :: ss =>
    match format_sheet_name bot_name s with
    | none => ([], .error .indexError)
    | some sn =>
      match buildRow b (dictGet b.steps s) (hmap sn) with
      | .error e => ([], .error e)
      | .ok row =>
        let tail := update_values_steps w hmap bot_name b ss
        match w.values_append sn row with
        | .ok _ => (Event.appendRow sn row :: tail.1, tail.2)
        | .error _ => (Event.appendRow sn row :: Event.logWarning :: tail.1, tail.2)

/-- `update_values` over all bots. -/
def update_values (w : World) (hmap : String → List String) :
    List (String × BotInfo) → List Event × Except PyErr Unit
  | [] => ([], .ok ())
  | (name, b) :: rest =>
    match update_values_steps w hmap name b b.step_names with
    | (ev, .error e) => (ev, .error e)
    | (ev, .ok _) =>
      match update_values w hmap rest with
      | (ev2, r2) => (ev ++ ev2, r2)

/-! ### `update_spreadsheet` and `main` -/

/-- `update_spreadsheet`: get the spreadsheet, create missing sheets, fetch
and complete the headers, then append the value rows. -/
def update_spreadsheet (w : World) (info : List (String × BotInfo)) :
    List Event × Except PyErr Unit :=
  match w.sheets_get with
  | .error m => ([.sheetsGet], .error (.exception m))
  | .ok none => ([.sheetsGet], .error (.exception "Did not open spreadsheet"))
  | .ok (some ss) =>
    match get_sheet_names info with
    | .error e => ([.sheetsGet], .error e)
    | .ok sheet_names =>
      match create_sheets_step w (validate_sheets ss sheet_names) with
      | (ev1, .error e) => (.sheetsGet :: ev1, .error e)
      | (ev1, .ok _) =>
        match get_headers w sheet_names with
        | (ev2, .error e) => (.sheetsGet :: ev1 ++ ev2, .error e)
        | (ev2, .ok hmap) =>
          match update_headers w hmap info with
          | (ev3, .error e) => (.sheetsGet :: ev1 ++ ev2 ++ ev3, .error e)
          | (ev3, .ok h') =>
            match update_values w h' info with
            | (ev4, r4) => (.sheetsGet :: ev1 ++ ev2 ++ ev3 ++ ev4, r4)

/-- The `main` function of the script (named `mainRun` here because `main` is
reserved): credentials first (failure exits 1), then the bot loop (failures
logged and skipped), then the spreadsheet update (failure exits 1).  The
returned number is the process exit status. -/
def mainRun (w : World) : List Event × Nat :=
  match w.auth with
  | .error _ => ([Event.logError], 1)
  | .ok _ =>
    match processBots w BOT_NAMES with
    | (pe, info) =>
      match update_spreadsheet w info with
      | (se, .error _) => (pe ++ se ++ [Event.logError], 1)
      | (se, .ok _) => (pe ++ se, 0)

/-! ### Specification-side helpers used by the theorem statements -/

/-- The `(key, raw value)` a `*RESULT` line contributes, using exactly the
decomposition of `process_result_line`; `none` when the line is skipped. -/
def lineKV (line : String) : Option (String × String) :=
  if pyIn INFO_TAG line = false then none
  else
    match (pySplitFirst line INFO_TAG).get? 1 with
    | none => none
    | some afterTag =>
      let cols := pySplit afterTag ":"
      if cols.length ≠ 3 then none
      else
        match cols.get? 1, cols.get? 2 with
        | some kraw, some vraw => some (pyStrip kraw, vraw)
        | _, _ => none

/-- Whether a line's `*RESULT` contribution for `key` (if any) parses as int. -/
def lineKVOk (key : String) (l : String) : Bool :=
  match lineKV l with
  | some (k, v) => !(k == key) || (pyInt? v).isSome
  | none => true

/-- The integer values the log's `*RESULT` lines carry for `key`, in order. -/
def intOccs (key : String) (lines : List String) : List Int :=
  lines.filterMap (fun l =>
    match lineKV l with
    | some (k, v) => if k = key then pyInt? v else none
    | none => none)

/-- Whether every step named in `step_names` has a parsed (non-`None`) record. -/
def stepsPresentB (info : List (String × BotInfo)) : Bool :=
  info.all (fun p => p.2.step_names.all (fun s =>
    match dictGet p.2.steps s with
    | some (some _) => true
    | _ => false))

/-- Whether every bot/step pair has a well-formed sheet name. -/
def fmtOkB (info : List (String × BotInfo)) : Bool :=
  info.all (fun p => p.2.step_names.all (fun s => (format_sheet_name p.1 s).isSome))

/-- The value `update_values` places under a header key (total form, for
records whose step info is present). -/
def rowSpecVal (b : BotInfo) (si : StepInfo) (key : String) : CellVal :=
  if (botGetReq b key).isSome && decide (key ∈ REQUIRED_COLUMNS) then
    (botGetReq b key).getD (.strV "")
  else (dictGet si key).getD (.strV "")

/-- The append attempt (and the warning, when the append fails) one bot/step
pair contributes to the `update_values` trace. -/
def specStepEvents (w : World) (hmap : String → List String)
    (bot_name : String) (b : BotInfo) (s : String) : List Event :=
  match format_sheet_name bot_name s, dictGet b.steps s with
  | some sn, some (some si) =>
    let row := (hmap sn).map (rowSpecVal b si)
    Event.appendRow sn row ::
      (match w.values_append sn row with
       | .ok _ => []
       | .error _ => [Event.logWarning])
  | _, _ => []

/-- The expected `update_values` trace: one attempt per bot/step pair, plus a
warning after each failing append. -/
def specAppendEvents (w : World) (hmap : String → List String)
    (info : List (String × BotInfo)) : List Event :=
  info.flatMap (fun p => p.2.step_names.flatMap (specStepEvents w hmap p.1 p.2))

/-- Whether the partial-sum values present in a record are `int()`-convertible. -/
def partialsOkB (si : StepInfo) : Bool :=
  PARTIAL_SUM_KEYS.all (fun k =>
    match dictGet si k with
    | some v => okB (pyIntOfCell v)
    | none => true)

/-- Events of the parsing phase (`bb` invocations). -/
def isBbEvent : Event → Bool
  | .bbLs _ => true
  | .bbGetSteps _ => true
  | .bbLog _ _ => true
  | _ => false

/-- Events of the spreadsheet phase. -/
def isSheetEvent : Event → Bool
  | .sheetsGet => true
  | .addSheets _ => true
  | .headersGet _ => true
  | .headersUpdate _ => true
  | .appendRow _ _ => true
  | _ => false

/-- Two worlds agreeing on everything the parsing phase reads. -/
def bbAgree (w w' : World) : Prop :=
  w.bb_ls = w'.bb_ls ∧ w.bb_steps = w'.bb_steps ∧ w.bb_log = w'.bb_log ∧
    w.today = w'.today

/-- The bot name a `bb ls` event queries. -/
def evLsBot : Event → Option String
  | .bbLs b => some b
  | _ => none

/-- The trace one bot contributes to the bot loop. -/
def botTrace (w : World) (b : String) : List Event :=
  let (ev, r) := get_bot_info w (BOT_NAME_PREFIX_C ++ b)
  match r with
  | .ok _ => ev
  | .error _ => ev ++ [Event.logError]

/-- A world with constant oracles, used to instantiate oracle-parametric
theorems on concrete runs. -/
def trivialWorld : World where
  auth := .ok ()
  bb_ls := fun _ => ("", "e")
  bb_steps := fun _ => ("", "")
  bb_log := fun _ _ => ("", "")
  today := "01/01/20"
  sheets_get := .ok (some ⟨[]⟩)
  batch_update := .ok ()
  headers_get := .ok (fun _ => none)
  values_update := .ok ()
  values_append := fun _ _ => .ok ()

/-- Whether an event is a sheet-creation request. -/
def isAddSheets : Event → Bool
  | .addSheets _ => true
  | _ => false

/-- A concrete bot record used by witnesses: one step whose parsed record
holds one statistic. -/
def botB : BotInfo :=
  ⟨"bn", "bl", some "12:00:00", none, none, none, ["angle_x"],
   [("angle_x", some [("Passed", CellVal.intV 1)])]⟩

/-! ### Dictionary lemmas -/

theorem find?_overwrite_same {α : Type} (d : List (String × α)) (k : String) (v : α)
    (hs : (d.find? (fun p => p.1 = k)).isSome = true) :
    (d.map (fun p => if p.1 = k then (k, v) else p)).find? (fun p => p.1 = k) = some (k, v) := by
  induction d with
  | nil => simp at hs
  | cons p ps ih =>
    by_cases h : p.1 = k
    · rw [List.map_cons, if_pos h]
      exact List.find?_cons_of_pos _ (by simp)
    · rw [List.find?_cons_of_neg _ (by simpa using h)] at hs
      rw [List.map_cons, if_neg h, List.find?_cons_of_neg _ (by simpa using h)]
      exact ih hs

theorem find?_overwrite_ne {α : Type} (d : List (String × α)) (k k' : String) (v : α)
    (hne : k' ≠ k) :
    (d.map (fun p => if p.1 = k then (k, v) else p)).find? (fun p => p.1 = k') =
      d.find? (fun p => p.1 = k') := by
  induction d with
  | nil => simp
  | cons p ps ih =>
    by_cases h : p.1 = k
    · have hp : ¬ p.1 = k' := fun hh => hne ((h.symm.trans hh).symm)
      rw [List.map_cons, if_pos h,
          List.find?_cons_of_neg _ (by simpa using fun hh : k = k' => hne hh.symm),
          List.find?_cons_of_neg _ (by simpa using hp)]
      exact ih
    · rw [List.map_cons, if_neg h]
      by_cases h2 : p.1 = k'
      · rw [List.find?_cons_of_pos _ (by simpa using h2),
            List.find?_cons_of_pos _ (by simpa using h2)]
      · rw [List.find?_cons_of_neg _ (by simpa using h2),
            List.find?_cons_of_neg _ (by simpa using h2)]
        exact ih

theorem dictGet_set_same {α : Type} (d : List (String × α)) (k : String) (v : α) :
    dictGet (dictSet d k v) k = some v := by
  rcases hf : d.find? (fun p => p.1 = k) with _ | q
  · unfold dictSet
    rw [hf]
    simp only [Option.isSome_none, Bool.false_eq_true, if_false]
    unfold dictGet
    rw [List.find?_append, hf]
    simp [List.find?]
  · unfold dictSet
    rw [hf]
    simp only [Option.isSome_some, if_true]
    unfold dictGet
    rw [find?_overwrite_same d k v (by rw [hf]; rfl)]
    rfl

theorem dictGet_set_ne {α : Type} (d : List (String × α)) (k k' : String) (v : α)
    (hne : k' ≠ k) : dictGet (dictSet d k v) k' = dictGet d k' := by
  rcases hf : d.find? (fun p => p.1 = k) with _ | q
  · unfold dictSet
    rw [hf]
    simp only [Option.isSome_none, Bool.false_eq_true, if_false]
    unfold dictGet
    rw [List.find?_append]
    rcases hf' : d.find? (fun p => p.1 = k') with _ | q'
    · simp [List.find?, Ne.symm hne]
    · rw [hf']
      simp
  · unfold dictSet
    rw [hf]
    simp only [Option.isSome_some, if_true]
    unfold dictGet
    rw [find?_overwrite_ne d k k' v hne]

theorem dictGet_some_ne_nil {α : Type} {d : List (String × α)} {k : String} {v : α}
    (h : dictGet d k = some v) : d ≠ [] := by
  intro he
  rw [he] at h
  simp [dictGet] at h

/-! ### Lemmas on the `get_latest_success_build_info` line loop -/

theorem string_toList_ne_nil {s : String} (h : s ≠ "") : s.toList ≠ [] := by
  intro hl
  apply h
  cases s with
  | mk data =>
    simp [String.toList] at hl
    subst hl
    rfl

theorem splitLinesAux_ne_nil : ∀ cs acc, cs ≠ [] ∨ acc ≠ [] → splitLinesAux cs acc ≠ [] := by
  intro cs
  induction cs with
  | nil =>
    intro acc h
    rcases h with h | h
    · exact absurd rfl h
    · simp [splitLinesAux, h]
  | cons c cs ih =>
    intro acc _
    by_cases hc : c = '\n'
    · simp [splitLinesAux, hc]
    · rw [show splitLinesAux (c :: cs) acc = splitLinesAux cs (c :: acc) by
        simp [splitLinesAux, hc]]
      exact ih (c :: acc) (Or.inr (by simp))

theorem pySplitlines_ne_nil {s : String} (h : s ≠ "") : pySplitlines s ≠ [] :=
  splitLinesAux_ne_nil s.toList [] (Or.inl (string_toList_ne_nil h))

theorem processBuildName_of_some (l : String) (st : BInfoState)
    (h : st.build_name.isSome = true) : processBuildName l st = .ok st := by
  rcases hb : st.build_name with _ | bn
  · rw [hb] at h
    simp at h
  · simp [processBuildName, hb]

theorem processBuildName_err (l : String) (st : BInfoState) (e : PyErr)
    (h : processBuildName l st = .error e) : e = .indexError := by
  unfold processBuildName at h
  split at h
  · split at h
    · simp only [Except.error.injEq] at h
      exact h.symm
    · split at h
      · simp only [Except.error.injEq] at h
        exact h.symm
      · simp at h
  · simp at h

theorem processBuildName_init (l : String) (st1 : BInfoState)
    (h : processBuildName l initBInfo = .ok st1) :
    ∃ bn rest, (pySplit (pyStrip l) "'").get? 1 = some bn ∧
      (pySplit bn BOT_NAME_PREFIX_C).get? 1 = some rest ∧
      st1.build_name = some bn ∧
      st1.build_link = some (BUILD_LINK_PREFIX_C ++ urllib_quote rest) := by
  unfold processBuildName at h
  rw [if_pos (by rfl)] at h
  split at h
  · simp at h
  · rename_i bn hbn
    split at h
    · simp at h
    · rename_i rest hrest
      simp only [Except.ok.injEq] at h
      subst h
      exact ⟨bn, rest, hbn, hrest, rfl, rfl⟩

theorem processCreated_fields (t l : String) (st st' : BInfoState)
    (h : processCreated t l st = .ok st') :
    st'.build_name = st.build_name ∧ st'.build_link = st.build_link := by
  unfold processCreated at h
  split at h
  · split at h
    · simp at h
    · simp only [Except.ok.injEq] at h
      subst h
      simp
  · simp only [Except.ok.injEq] at h
    subst h
    simp

theorem processCreated_err (t l : String) (st : BInfoState) (e : PyErr)
    (h : processCreated t l st = .error e) : e = .indexError := by
  unfold processCreated at h
  split at h
  · split at h
    · simp only [Except.error.injEq] at h
      exact h.symm
    · simp at h
  · simp at h

theorem processAngleRev_fields (l : String) (st st' : BInfoState)
    (h : processAngleRev l st = .ok st') :
    st'.build_name = st.build_name ∧ st'.build_link = st.build_link := by
  unfold processAngleRev at h
  split at h
  · split at h
    · simp at h
    · simp only [Except.ok.injEq] at h
      subst h
      simp
  · simp only [Except.ok.injEq] at h
    subst h
    simp

theorem processAngleRev_err (l : String) (st : BInfoState) (e : PyErr)
    (h : processAngleRev l st = .error e) : e = .indexError := by
  unfold processAngleRev at h
  split at h
  · split at h
    · simp only [Except.error.injEq] at h
      exact h.symm
    · simp at h
  · simp at h

theorem processRevision_fields (l : String) (st st' : BInfoState)
    (h : processRevision l st = .ok st') :
    st'.build_name = st.build_name ∧ st'.build_link = st.build_link := by
  unfold processRevision at h
  split at h
  · split at h
    · simp at h
    · simp only [Except.ok.injEq] at h
      subst h
      simp
  · simp only [Except.ok.injEq] at h
    subst h
    simp

theorem processRevision_err (l : String) (st : BInfoState) (e : PyErr)
    (h : processRevision l st = .error e) : e = .indexError := by
  unfold processRevision at h
  split at h
  · split at h
    · simp only [Except.error.injEq] at h
      exact h.symm
    · simp at h
  · simp at h

theorem processLine_preserve (t l : String) (st st' : BInfoState)
    (hs : st.build_name.isSome = true) (h : processLine t st l = .ok st') :
    st'.build_name = st.build_name ∧ st'.build_link = st.build_link := by
  unfold processLine at h
  cases hb : processBuildName l st with
  | error e => rw [hb] at h; simp at h
  | ok st1 =>
    rw [hb] at h
    try dsimp only at h
    have h1 : st = st1 := by
      simpa using (processBuildName_of_some l st hs).symm.trans hb
    subst h1
    try dsimp only at h
    cases hc : processCreated t l st with
    | error e => rw [hc] at h; simp at h
    | ok st2 =>
      rw [hc] at h
      try dsimp only at h
      cases hA : processAngleRev l st2 with
      | error e => rw [hA] at h; simp at h
      | ok st3 =>
        rw [hA] at h
        try dsimp only at h
        obtain ⟨c1, c2⟩ := processCreated_fields t l st st2 hc
        obtain ⟨a1, a2⟩ := processAngleRev_fields l st2 st3 hA
        obtain ⟨r1, r2⟩ := processRevision_fields l st3 st' h
        exact ⟨by rw [r1, a1, c1], by rw [r2, a2, c2]⟩

theorem processLine_err (t l : String) (st : BInfoState) (e : PyErr)
    (h : processLine t st l = .error e) : e = .indexError := by
  unfold processLine at h
  cases hb : processBuildName l st with
  | error e' =>
    rw [hb] at h
    try dsimp only at h
    simp only [Except.error.injEq] at h
    rw [← h]
    exact processBuildName_err l st e' hb
  | ok st1 =>
    rw [hb] at h
    try dsimp only at h
    cases hc : processCreated t l st1 with
    | error e' =>
      rw [hc] at h
      try dsimp only at h
      simp only [Except.error.injEq] at h
      rw [← h]
      exact processCreated_err t l st1 e' hc
    | ok st2 =>
      rw [hc] at h
      try dsimp only at h
      cases hA : processAngleRev l st2 with
      | error e' =>
        rw [hA] at h
        try dsimp only at h
        simp only [Except.error.injEq] at h
        rw [← h]
        exact processAngleRev_err l st2 e' hA
      | ok st3 =>
        rw [hA] at h
        try dsimp only at h
        exact processRevision_err l st3 e h

theorem processLine_init (t l : String) (st' : BInfoState)
    (h : processLine t initBInfo l = .ok st') :
    ∃ bn rest, (pySplit (pyStrip l) "'").get? 1 = some bn ∧
      (pySplit bn BOT_NAME_PREFIX_C).get? 1 = some rest ∧
      st'.build_name = some bn ∧
      st'.build_link = some (BUILD_LINK_PREFIX_C ++ urllib_quote rest) := by
  unfold processLine at h
  cases hpb : processBuildName l initBInfo with
  | error e => rw [hpb] at h; simp at h
  | ok st1 =>
    rw [hpb] at h
    try dsimp only at h
    obtain ⟨bn, rest, h1, h2, h3, h4⟩ := processBuildName_init l st1 hpb
    cases hc : processCreated t l st1 with
    | error e => rw [hc] at h; simp at h
    | ok st2 =>
      rw [hc] at h
      try dsimp only at h
      cases hA : processAngleRev l st2 with
      | error e => rw [hA] at h; simp at h
      | ok st3 =>
        rw [hA] at h
        try dsimp only at h
        obtain ⟨c1, c2⟩ := processCreated_fields t l st1 st2 hc
        obtain ⟨a1, a2⟩ := processAngleRev_fields l st2 st3 hA
        obtain ⟨r1, r2⟩ := processRevision_fields l st3 st' h
        exact ⟨bn, rest, h1, h2, by rw [r1, a1, c1, h3], by rw [r2, a2, c2, h4]⟩

theorem runLines_preserve (t : String) (ls : List String) (st st' : BInfoState)
    (a b : String) (ha : st.build_name = some a) (hb : st.build_link = some b)
    (h : runLines t st ls = .ok st') :
    st'.build_name = some a ∧ st'.build_link = some b := by
  induction ls generalizing st with
  | nil =>
    unfold runLines at h
    simp only [Except.ok.injEq] at h
    subst h
    exact ⟨ha, hb⟩
  | cons l ls ih =>
    unfold runLines at h
    cases hp : processLine t st l with
    | error e => rw [hp] at h; simp at h
    | ok st1 =>
      rw [hp] at h
      try dsimp only at h
      obtain ⟨h1, h2⟩ := processLine_preserve t l st st1 (by rw [ha]; rfl) hp
      exact ih st1 (h1.trans ha) (h2.trans hb) h

theorem runLines_err (t : String) (ls : List String) (st : BInfoState) (e : PyErr)
    (h : runLines t st ls = .error e) : e = .indexError := by
  induction ls generalizing st with
  | nil => simp [runLines] at h
  | cons l ls ih =>
    unfold runLines at h
    cases hp : processLine t st l with
    | error e' =>
      rw [hp] at h
      try dsimp only at h
      simp only [Except.error.injEq] at h
      rw [← h]
      exact processLine_err t l st e' hp
    | ok st1 =>
      rw [hp] at h
      try dsimp only at h
      exact ih st1 h

theorem runLines_init (t l : String) (ls : List String) (st' : BInfoState)
    (h : runLines t initBInfo (l :: ls) = .ok st') :
    ∃ bn rest, (pySplit (pyStrip l) "'").get? 1 = some bn ∧
      (pySplit bn BOT_NAME_PREFIX_C).get? 1 = some rest ∧
      st'.build_name = some bn ∧
      st'.build_link = some (BUILD_LINK_PREFIX_C ++ urllib_quote rest) := by
  unfold runLines at h
  cases hp : processLine t initBInfo l with
  | error e => rw [hp] at h; simp at h
  | ok st1 =>
    rw [hp] at h
    try dsimp only at h
    obtain ⟨bn, rest, h1, h2, h3, h4⟩ := processLine_init t l st1 hp
    obtain ⟨h5, h6⟩ := runLines_preserve t ls st1 st' bn _ h3 h4 h
    exact ⟨bn, rest, h1, h2, h5, h6⟩

theorem glsbi_no_valueError (bot err out today : String)
    (he : err = "") (ho : out ≠ "") (hs : pyIn "SUCCESS" out = true) :
    ∀ m, get_latest_success_build_info_core bot err out today ≠ .error (.valueError m) := by
  intro m hcontra
  unfold get_latest_success_build_info_core at hcontra
  rw [if_neg (by simp [he])] at hcontra
  rw [if_neg ho] at hcontra
  rw [if_neg (by simp [hs])] at hcontra
  cases hr : runLines today initBInfo (pySplitlines out) with
  | error e =>
    rw [hr] at hcontra
    try dsimp only at hcontra
    simp only [Except.error.injEq] at hcontra
    rw [runLines_err _ _ _ _ hr] at hcontra
    simp at hcontra
  | ok st =>
    rw [hr] at hcontra
    rcases hlines : pySplitlines out with _ | ⟨l, ls⟩
    · exact pySplitlines_ne_nil ho hlines
    · rw [hlines] at hr
      obtain ⟨bn, rest, h1, h2, h3, h4⟩ := runLines_init today l ls st hr
      try dsimp only at hcontra
      rw [h3, h4] at hcontra
      simp at hcontra

theorem glsbi_valueError_iff (bot err out today : String) :
    (∃ m, get_latest_success_build_info_core bot err out today = .error (.valueError m)) ↔
      (err ≠ "" ∨ out = "" ∨ pyIn "SUCCESS" out = false) := by
  constructor
  · rintro ⟨m, hm⟩
    by_contra hc
    push_neg at hc
    obtain ⟨h1, h2, h3⟩ := hc
    exact glsbi_no_valueError bot err out today h1 h2 (by simpa using h3) m hm
  · intro h
    by_cases he : err ≠ ""
    · refine ⟨"Unexpected error from bb ls: '" ++ err ++ "'", ?_⟩
      unfold get_latest_success_build_info_core
      rw [if_pos he]
    · by_cases ho : out = ""
      · refine ⟨"Unexpected empty result from bb ls of bot '" ++ bot ++ "'", ?_⟩
        unfold get_latest_success_build_info_core
        rw [if_neg he, if_pos ho]
      · by_cases hp : pyIn "SUCCESS" out = false
        · refine ⟨"Unexpected result from bb ls: '" ++ out ++ "'", ?_⟩
          unfold get_latest_success_build_info_core
          rw [if_neg he, if_neg ho, if_pos hp]
        · rcases h with h | h | h
          · exact absurd h he
          · exact absurd h ho
          · exact absurd h hp

theorem glsbi_ok_fields (bot err out today : String) (bi : BInfo)
    (h : get_latest_success_build_info_core bot err out today = .ok bi) :
    (pySplit (pyStrip ((pySplitlines out).headD "")) "'").get? 1 = some bi.build_name ∧
    ∃ rest, (pySplit bi.build_name BOT_NAME_PREFIX_C).get? 1 = some rest ∧
      bi.build_link = BUILD_LINK_PREFIX_C ++ urllib_quote rest := by
  unfold get_latest_success_build_info_core at h
  split at h
  · simp at h
  · split at h
    · simp at h
    · rename_i hne1 hne2
      split at h
      · simp at h
      · cases hr : runLines today initBInfo (pySplitlines out) with
        | error e =>
          rw [hr] at h
          simp at h
        | ok st =>
          rw [hr] at h
          rcases hlines : pySplitlines out with _ | ⟨l, ls⟩
          · exact absurd hlines (pySplitlines_ne_nil hne2)
          · rw [hlines] at hr
            obtain ⟨bn, rest, h1, h2, h3, h4⟩ := runLines_init today l ls st hr
            try dsimp only at h
            rw [h3, h4] at h
            simp only [Except.ok.injEq] at h
            subst h
            refine ⟨?_, rest, by simpa using h2, by simp⟩
            simpa using h1

theorem get_bot_info_head (w : World) (bn : String) :
    ((get_bot_info w bn).1).head? = some (.bbLs bn) := by
  unfold get_bot_info
  cases hg : get_latest_success_build_info_core bn (w.bb_ls bn).2 (w.bb_ls bn).1 w.today with
  | error e => rfl
  | ok bi =>
    try dsimp only
    cases hsn : get_step_names_core (w.bb_steps bi.build_name).2 (w.bb_steps bi.build_name).1 with
    | error e => rfl
    | ok names =>
      try dsimp only
      rcases hr : runSteps w bi.build_name names with ⟨evs, r⟩
      cases r with
      | error e => rfl
      | ok steps => rfl

/-- **C4 (corrected).** For every bot name, the script queries the CI tool for
the single latest successful build (`bb ls <bot> -n 1 -status success -A`; the
first event of `get_bot_info` is that query).  The parse of its output raises
`ValueError` exactly when the tool writes to stderr, produces empty output, or
produces output not containing `SUCCESS` — but an unparseable build name
raises `IndexError`, not `ValueError`.  When the parse returns, the record's
`build_name` is taken from the first output line (between the first two single
quotes) and `build_link` equals `BUILD_LINK_PREFIX` plus the URL-quoted part
of the build name after `chromium/ci/`. -/
theorem spec_C4 (w : World) (bot err out today : String) :
    ((∃ m, get_latest_success_build_info_core bot err out today =
        .error (.valueError m)) ↔
      (err ≠ "" ∨ out = "" ∨ pyIn "SUCCESS" out = false))
    ∧ (∀ bi, get_latest_success_build_info_core bot err out today = .ok bi →
        (pySplit (pyStrip ((pySplitlines out).headD "")) "'").get? 1 = some bi.build_name ∧
        ∃ rest, (pySplit bi.build_name BOT_NAME_PREFIX_C).get? 1 = some rest ∧
          bi.build_link = BUILD_LINK_PREFIX_C ++ urllib_quote rest)
    ∧ ((get_bot_info w bot).1).head? = some (.bbLs bot) :=
  ⟨glsbi_valueError_iff bot err out today,
   fun bi h => glsbi_ok_fields bot err out today bi h,
   get_bot_info_head w bot⟩

/-- **C4 counterexample.** On stdout `"SUCCESS"` with empty stderr the claimed
dichotomy (raise `ValueError` or return a record) fails: the first line has no
single quote, so `line.strip().split("'")[1]` raises `IndexError`. -/
theorem spec_C4_cex :
    get_latest_success_build_info_core "B" "" "SUCCESS" "d" =
      .error PyErr.indexError := by rfl

/-- Witness for `spec_C4`: a successful `bb ls` output, with the hypotheses of
the theorem discharged at it. -/
theorem spec_C4_witness :
    get_latest_success_build_info_core "B" "" "x SUCCESS 'chromium/ci/Bot/1'" "d" =
      .ok ⟨"chromium/ci/Bot/1",
           "https://ci.chromium.org/p/chromium/builders/ci/Bot/1",
           none, none, none, none⟩ ∧
    ((pySplit (pyStrip ((pySplitlines "x SUCCESS 'chromium/ci/Bot/1'").headD "")) "'").get? 1 =
        some "chromium/ci/Bot/1" ∧
      ∃ rest, (pySplit "chromium/ci/Bot/1" BOT_NAME_PREFIX_C).get? 1 = some rest ∧
        ("https://ci.chromium.org/p/chromium/builders/ci/Bot/1" : String) =
          BUILD_LINK_PREFIX_C ++ urllib_quote rest) := by
  refine ⟨by rfl, ?_⟩
  exact (spec_C4 trivialWorld "B" "" "x SUCCESS 'chromium/ci/Bot/1'" "d").2.1
    ⟨"chromium/ci/Bot/1", "https://ci.chromium.org/p/chromium/builders/ci/Bot/1",
     none, none, none, none⟩ (by rfl)

/-! ### Lemmas on `validate_step_info` and the `*RESULT` line loop -/

theorem partialSumValues_ok (si : StepInfo) (ks : List String)
    (h : ∀ k ∈ ks, ∀ v, dictGet si k = some v → okB (pyIntOfCell v) = true) :
    ∃ l, partialSumValues si ks = .ok l := by
  induction ks with
  | nil => exact ⟨[], rfl⟩
  | cons k ks ih =>
    obtain ⟨l, hl⟩ := ih (fun k' hk' v hv => h k' (List.mem_cons_of_mem _ hk') v hv)
    unfold partialSumValues
    cases hd : dictGet si k with
    | none => exact ⟨l, hl⟩
    | some v =>
      have hv := h k (by simp) v hd
      cases hc : pyIntOfCell v with
      | error e => rw [hc] at hv; simp [okB] at hv
      | ok n =>
        refine ⟨n :: l, ?_⟩
        try dsimp only
        rw [hc, hl]
        rfl

theorem validate_ok_false_imp (si : StepInfo)
    (h : validate_step_info si = .ok false) : si = [] := by
  by_contra hne
  unfold validate_step_info at h
  rw [if_neg hne] at h
  by_cases ht : (dictGet si "Total").isSome
  · rw [if_pos ht] at h
    cases hp : partialSumValues si PARTIAL_SUM_KEYS with
    | error e => rw [hp] at h; simp at h
    | ok l => rw [hp] at h; simp at h
  · rw [if_neg ht] at h
    simp at h

theorem validate_ok_true_of (si : StepInfo) (hne : si ≠ [])
    (hok : partialsOkB si = true) : validate_step_info si = .ok true := by
  unfold validate_step_info
  rw [if_neg hne]
  by_cases ht : (dictGet si "Total").isSome
  · rw [if_pos ht]
    have hker : ∀ k ∈ PARTIAL_SUM_KEYS, ∀ v, dictGet si k = some v →
        okB (pyIntOfCell v) = true := by
      intro k hk v hv
      unfold partialsOkB at hok
      rw [List.all_eq_true] at hok
      have h2 := hok k hk
      rw [hv] at h2
      exact h2
    obtain ⟨l, hl⟩ := partialSumValues_ok si PARTIAL_SUM_KEYS hker
    rw [hl]
  · rw [if_neg ht]

theorem prl_of_kv (si : StepInfo) (ae : List String) (l k v : String)
    (hkv : lineKV l = some (k, v)) :
    process_result_line si ae l =
      match pyInt? v with
      | some n =>
        match dictGet si k with
        | none => .ok (dictSet si k (.intV n), ae)
        | some (.intV m) => .ok (dictSet si k (.intV (m + n)), ae)
        | some (.strV _) => .error .typeError
      | none =>
        match dictGet si k with
        | none => .ok (dictSet si k (.strV (pyStrip v)), ae)
        | some (.strV s) =>
          if s.utf8ByteSize + ("\n" ++ pyStrip v).utf8ByteSize < 50000 then
            .ok (dictSet si k (.strV (s ++ ("\n" ++ pyStrip v))), ae)
          else if k ∈ ae then .ok (si, ae)
          else .ok (si, ae ++ [k])
        | some (.intV _) => .error .typeError := by
  unfold lineKV at hkv
  unfold process_result_line
  by_cases hp : pyIn INFO_TAG l = false
  · rw [if_pos hp] at hkv
    simp at hkv
  · rw [if_neg hp] at hkv
    rw [if_neg hp]
    cases hg : (pySplitFirst l INFO_TAG).get? 1 with
    | none => rw [hg] at hkv; simp at hkv
    | some afterTag =>
      rw [hg] at hkv
      try dsimp only at hkv ⊢
      by_cases hl : (pySplit afterTag ":").length ≠ 3
      · rw [if_pos hl] at hkv
        simp at hkv
      · rw [if_neg hl] at hkv
        rw [if_neg hl]
        cases h1 : (pySplit afterTag ":").get? 1 with
        | none => rw [h1] at hkv; simp at hkv
        | some kraw =>
          rw [h1] at hkv
          cases h2 : (pySplit afterTag ":").get? 2 with
          | none => rw [h2] at hkv; simp at hkv
          | some vraw =>
            rw [h2] at hkv
            try dsimp only at hkv ⊢
            simp only [Option.some.injEq, Prod.mk.injEq] at hkv
            obtain ⟨hk, hv⟩ := hkv
            subst hk
            subst hv
            rfl

theorem prl_none_ok (si : StepInfo) (ae : List String) (l : String)
    (si' : StepInfo) (ae' : List String) (hkv : lineKV l = none)
    (h : process_result_line si ae l = .ok (si', ae')) : si' = si := by
  unfold lineKV at hkv
  unfold process_result_line at h
  by_cases hp : pyIn INFO_TAG l = false
  · rw [if_pos hp] at h
    simp only [Except.ok.injEq, Prod.mk.injEq] at h
    exact h.1.symm
  · rw [if_neg hp] at hkv
    rw [if_neg hp] at h
    cases hg : (pySplitFirst l INFO_TAG).get? 1 with
    | none => rw [hg] at h; simp at h
    | some afterTag =>
      rw [hg] at hkv
      rw [hg] at h
      try dsimp only at hkv h
      by_cases hl : (pySplit afterTag ":").length ≠ 3
      · rw [if_pos hl] at h
        simp only [Except.ok.injEq, Prod.mk.injEq] at h
        exact h.1.symm
      · rw [if_neg hl] at hkv
        rw [if_neg hl] at h
        cases h1 : (pySplit afterTag ":").get? 1 with
        | none => rw [h1] at h; simp at h
        | some kraw =>
          rw [h1] at hkv
          rw [h1] at h
          cases h2 : (pySplit afterTag ":").get? 2 with
          | none => rw [h2] at h; simp at h
          | some vraw =>
            rw [h2] at hkv
            try dsimp only at hkv
            simp at hkv

theorem prl_kv_other (si : StepInfo) (ae : List String) (l k v : String)
    (si' : StepInfo) (ae' : List String) (key : String)
    (hkv : lineKV l = some (k, v))
    (h : process_result_line si ae l = .ok (si', ae')) (hne : k ≠ key) :
    dictGet si' key = dictGet si key := by
  rw [prl_of_kv si ae l k v hkv] at h
  cases hi : pyInt? v with
  | some n =>
    rw [hi] at h
    try dsimp only at h
    cases hd : dictGet si k with
    | none =>
      rw [hd] at h
      simp only [Except.ok.injEq, Prod.mk.injEq] at h
      rw [← h.1]
      exact dictGet_set_ne si k key _ (Ne.symm hne)
    | some c =>
      cases c with
      | intV m =>
        rw [hd] at h
        simp only [Except.ok.injEq, Prod.mk.injEq] at h
        rw [← h.1]
        exact dictGet_set_ne si k key _ (Ne.symm hne)
      | strV s => rw [hd] at h; simp at h
  | none =>
    rw [hi] at h
    try dsimp only at h
    cases hd : dictGet si k with
    | none =>
      rw [hd] at h
      simp only [Except.ok.injEq, Prod.mk.injEq] at h
      rw [← h.1]
      exact dictGet_set_ne si k key _ (Ne.symm hne)
    | some c =>
      cases c with
      | strV s =>
        rw [hd] at h
        try dsimp only at h
        split at h
        · simp only [Except.ok.injEq, Prod.mk.injEq] at h
          rw [← h.1]
          exact dictGet_set_ne si k key _ (Ne.symm hne)
        · split at h
          · simp only [Except.ok.injEq, Prod.mk.injEq] at h
            rw [← h.1]
          · simp only [Except.ok.injEq, Prod.mk.injEq] at h
            rw [← h.1]
      | intV m => rw [hd] at h; simp at h

theorem prl_kv_int (si : StepInfo) (ae : List String) (l key v : String)
    (si' : StepInfo) (ae' : List String) (n : Int)
    (hkv : lineKV l = some (key, v)) (hn : pyInt? v = some n)
    (h : process_result_line si ae l = .ok (si', ae')) :
    (dictGet si key = none ∧ dictGet si' key = some (.intV n)) ∨
    (∃ m, dictGet si key = some (.intV m) ∧
      dictGet si' key = some (.intV (m + n))) := by
  rw [prl_of_kv si ae l key v hkv, hn] at h
  try dsimp only at h
  cases hd : dictGet si key with
  | none =>
    rw [hd] at h
    simp only [Except.ok.injEq, Prod.mk.injEq] at h
    exact Or.inl ⟨rfl, by rw [← h.1]; exact dictGet_set_same si key (.intV n)⟩
  | some c =>
    cases c with
    | intV m =>
      rw [hd] at h
      simp only [Except.ok.injEq, Prod.mk.injEq] at h
      exact Or.inr ⟨m, rfl, by rw [← h.1]; exact dictGet_set_same si key (.intV (m + n))⟩
    | strV s => rw [hd] at h; simp at h

theorem runResult_int_inv (key : String) :
    ∀ (lines : List String) (si : StepInfo) (ae : List String)
      (si' : StepInfo) (ae' : List String),
      runResultLines si ae lines = .ok (si', ae') →
      (∀ l ∈ lines, lineKVOk key l = true) →
      (∀ m, dictGet si key = some (.intV m) →
        dictGet si' key = some (.intV (m + (intOccs key lines).sum))) ∧
      (dictGet si key = none →
        dictGet si' key = (if intOccs key lines = [] then none
          else some (.intV (intOccs key lines).sum))) := by
  intro lines
  induction lines with
  | nil =>
    intro si ae si' ae' h _
    unfold runResultLines at h
    simp only [Except.ok.injEq, Prod.mk.injEq] at h
    obtain ⟨h1, _⟩ := h
    subst h1
    simp [intOccs]
  | cons l ls ih =>
    intro si ae si' ae' h hok
    unfold runResultLines at h
    cases hp : process_result_line si ae l with
    | error e => rw [hp] at h; simp at h
    | ok p =>
      rcases p with ⟨si1, ae1⟩
      rw [hp] at h
      try dsimp only at h
      have hok_ls : ∀ l' ∈ ls, lineKVOk key l' = true :=
        fun l' hl' => hok l' (by simp [hl'])
      have ihr := ih si1 ae1 si' ae' h hok_ls
      cases hkv : lineKV l with
      | none =>
        have hsi : si1 = si := prl_none_ok si ae l si1 ae1 hkv hp
        subst hsi
        have hocc : intOccs key (l :: ls) = intOccs key ls := by
          simp [intOccs, hkv]
        rw [hocc]
        exact ihr
      | some kv =>
        rcases kv with ⟨k, v⟩
        by_cases hk : k = key
        · rw [hk] at hkv
          have hok_l := hok l (by simp)
          unfold lineKVOk at hok_l
          rw [hkv] at hok_l
          simp at hok_l
          obtain ⟨n, hn⟩ := Option.isSome_iff_exists.mp hok_l
          have hocc : intOccs key (l :: ls) = n :: intOccs key ls := by
            simp [intOccs, hkv, hn]
          rw [hocc]
          rcases prl_kv_int si ae l key v si1 ae1 n hkv hn hp with
            ⟨hnone, hset⟩ | ⟨m, hm, hset⟩
          · constructor
            · intro m hm
              rw [hm] at hnone
              cases hnone
            · intro _
              have hfin := ihr.1 n hset
              have hcons : (n :: intOccs key ls).sum = n + (intOccs key ls).sum :=
                List.sum_cons
              rw [if_neg (by simp), hcons]
              exact hfin
          · constructor
            · intro m' hm'
              rw [hm'] at hm
              simp only [Option.some.injEq, CellVal.intV.injEq] at hm
              subst hm
              have hfin := ihr.1 (m' + n) hset
              have : m' + (n :: intOccs key ls).sum = m' + n + (intOccs key ls).sum := by
                rw [List.sum_cons]
                ring
              rw [this]
              exact hfin
            · intro hnone
              rw [hnone] at hm
              cases hm
        · have hfr : dictGet si1 key = dictGet si key :=
            prl_kv_other si ae l k v si1 ae1 key hkv hp hk
          have hocc : intOccs key (l :: ls) = intOccs key ls := by
            simp [intOccs, hkv, hk]
          rw [hocc]
          exact ⟨fun m hm => ihr.1 m (by rw [hfr]; exact hm),
                 fun hm => ihr.2 (by rw [hfr]; exact hm)⟩

/-- **C10 (corrected).** `validate_step_info` returns `False` exactly when the
record is empty.  For a nonempty record it returns `True` — even when a
`Total` key disagrees with the sum of the partial counts, which only logs a
warning — *provided* every partial-sum value present (`Passed`, `Failed`,
`Skipped`, `Not Supported`, `Exception`, `Crashed`, checked only when `Total`
is present) converts with `int()`; a non-convertible value makes
`validate_step_info` raise `ValueError` instead, so `get_step_info` raises
rather than returning the record. -/
theorem spec_C10 (si : StepInfo) :
    (validate_step_info si = .ok false ↔ si = [])
    ∧ (si ≠ [] → partialsOkB si = true → validate_step_info si = .ok true) :=
  ⟨⟨fun h => validate_ok_false_imp si h, fun h => by subst h; rfl⟩,
   fun hne hok => validate_ok_true_of si hne hok⟩

/-- **C10 counterexample.** A nonempty parsed record with `Total` present and
a non-integer `Passed` value: `validate_step_info` raises `ValueError`
(instead of returning `True` as the claim states), and `get_step_info`
propagates the exception when parsing the corresponding log. -/
theorem spec_C10_cex :
    validate_step_info [("Total", CellVal.intV 5), ("Passed", CellVal.strV "xyz")] =
      .error (.valueError "invalid literal for int() with base 10: 'xyz'") ∧
    get_step_info_core "" "*RESULT: Total: 5\n*RESULT: Passed: xyz" =
      .error (.valueError "invalid literal for int() with base 10: 'xyz'") :=
  ⟨rfl, rfl⟩

/-- Witness for `spec_C10`: a nonempty record whose `Total` disagrees with the
partial sums still validates as `True`. -/
theorem spec_C10_witness :
    (([("Total", CellVal.intV 5), ("Passed", CellVal.intV 2)] : StepInfo) ≠ [] ∧
      partialsOkB [("Total", CellVal.intV 5), ("Passed", CellVal.intV 2)] = true) ∧
    validate_step_info [("Total", CellVal.intV 5), ("Passed", CellVal.intV 2)] =
      .ok true := by
  refine ⟨⟨by simp, by rfl⟩, ?_⟩
  exact (spec_C10 _).2 (by simp) (by rfl)

/-- **C8 (amended).** When `get_step_info` completes without raising (no key's
`*RESULT` lines mix integer and non-integer values — mixing raises
`TypeError`), and every `*RESULT` line for a given key carries a value that
parses as an integer, the value recorded for that key is the sum of all those
integers over every occurrence of the key (repeated keys accumulate). -/
theorem spec_C8 (out key : String) (osi : Option StepInfo)
    (hok : get_step_info_core "" out = .ok osi)
    (hall : ∀ l ∈ pySplitlines out, lineKVOk key l = true)
    (hne : intOccs key (pySplitlines out) ≠ []) :
    ∃ si, osi = some si ∧
      dictGet si key = some (.intV (intOccs key (pySplitlines out)).sum) := by
  unfold get_step_info_core at hok
  rw [if_neg (by simp)] at hok
  cases hr : runResultLines [] [] (pySplitlines out) with
  | error e => rw [hr] at hok; simp at hok
  | ok p =>
    rcases p with ⟨si, ae⟩
    rw [hr] at hok
    try dsimp only at hok
    have hinv := (runResult_int_inv key (pySplitlines out) [] [] si ae hr hall).2 rfl
    rw [if_neg hne] at hinv
    have hne2 : si ≠ [] := dictGet_some_ne_nil hinv
    cases hv : validate_step_info si with
    | error e => rw [hv] at hok; simp at hok
    | ok b =>
      rw [hv] at hok
      cases b with
      | false => exact absurd (validate_ok_false_imp si hv) hne2
      | true =>
        try dsimp only at hok
        simp only [Except.ok.injEq] at hok
        exact ⟨si, hok.symm, hinv⟩

/-- **C8 counterexample.** Key `A`'s `*RESULT` lines all carry integers (1 and
2), yet nothing is recorded: key `B`'s lines mix a string and an integer, so
the parse raises `TypeError` (`str += int`) and `get_step_info` aborts. -/
theorem spec_C8_cex :
    get_step_info_core ""
        "*RESULT: A: 1\n*RESULT: B: x\n*RESULT: B: 2\n*RESULT: A: 2" =
      .error PyErr.typeError := rfl

/-- Witness for `spec_C8`: two integer `*RESULT` lines for key `A` sum to 3. -/
theorem spec_C8_witness :
    get_step_info_core "" "*RESULT: A: 1\n*RESULT: A: 2" =
      .ok (some [("A", CellVal.intV 3)]) ∧
    (∀ l ∈ pySplitlines "*RESULT: A: 1\n*RESULT: A: 2", lineKVOk "A" l = true) ∧
    intOccs "A" (pySplitlines "*RESULT: A: 1\n*RESULT: A: 2") ≠ [] ∧
    ∃ si, (some [("A", CellVal.intV 3)] : Option StepInfo) = some si ∧
      dictGet si "A" =
        some (.intV (intOccs "A" (pySplitlines "*RESULT: A: 1\n*RESULT: A: 2")).sum) := by
  refine ⟨by rfl, by decide, by decide, ?_⟩
  exact spec_C8 "*RESULT: A: 1\n*RESULT: A: 2" "A" (some [("A", CellVal.intV 3)])
    (by rfl) (by decide) (by decide)

/-! ### Lemmas on `update_headers` -/

theorem foldAppend_mem_mono : ∀ (ks : List String) (p : List String × Bool) (k : String),
    k ∈ p.1 → k ∈ (ks.foldl appendIfAbsentF p).1 := by
  intro ks
  induction ks with
  | nil => intro p k h; exact h
  | cons a as ih =>
    intro p k h
    rw [List.foldl_cons]
    apply ih
    unfold appendIfAbsentF
    split
    · exact h
    · simp [h]

theorem foldAppend_mem_of_mem : ∀ (ks : List String) (p : List String × Bool) (k : String),
    k ∈ ks → k ∈ (ks.foldl appendIfAbsentF p).1 := by
  intro ks
  induction ks with
  | nil => intro p k h; cases h
  | cons a as ih =>
    intro p k h
    rw [List.foldl_cons]
    rcases List.mem_cons.mp h with h | h
    · subst h
      apply foldAppend_mem_mono
      unfold appendIfAbsentF
      split
      · rename_i hmem
        exact hmem
      · simp
    · exact ih _ k h

theorem foldAppend_count : ∀ (ks : List String) (p : List String × Bool) (k : String),
    ((ks.foldl appendIfAbsentF p).1).count k ≤ max (p.1.count k) 1 := by
  intro ks
  induction ks with
  | nil => intro p k; exact le_max_left _ _
  | cons a as ih =>
    intro p k
    rw [List.foldl_cons]
    refine le_trans (ih (appendIfAbsentF p a) k) ?_
    apply max_le
    · unfold appendIfAbsentF
      split
      · exact le_max_left _ _
      · rename_i hmem
        rw [List.count_append]
        by_cases hak : a = k
        · subst hak
          have h0 : p.1.count a = 0 := by
            rw [List.count_eq_zero]
            exact hmem
          simp [h0]
        · have h1 : ([a].count k) = 0 := by
            rw [List.count_eq_zero]
            simp [Ne.symm hak]
          rw [h1]
          simp
    · exact le_max_right _ _

theorem headersForStep_mem_required (hdr keys : List String) (c : String)
    (hc : c ∈ REQUIRED_COLUMNS) : c ∈ (headersForStep hdr keys).1 :=
  foldAppend_mem_mono keys _ c (foldAppend_mem_of_mem REQUIRED_COLUMNS (hdr, false) c hc)

theorem headersForStep_mem_keys (hdr keys : List String) (k : String)
    (hk : k ∈ keys) : k ∈ (headersForStep hdr keys).1 :=
  foldAppend_mem_of_mem keys _ k hk

theorem headersForStep_mem_mono (hdr keys : List String) (k : String)
    (hk : k ∈ hdr) : k ∈ (headersForStep hdr keys).1 :=
  foldAppend_mem_mono keys _ k (foldAppend_mem_mono REQUIRED_COLUMNS (hdr, false) k hk)

theorem headersForStep_count (hdr keys : List String) (k : String) :
    ((headersForStep hdr keys).1).count k ≤ max (hdr.count k) 1 := by
  refine le_trans (foldAppend_count keys _ k) ?_
  apply max_le
  · exact foldAppend_count REQUIRED_COLUMNS (hdr, false) k
  · exact le_max_right _ _

theorem uhs_mono (name : String) (b : BotInfo) :
    ∀ (steps : List String) (hmap : String → List String)
      (data : List (String × List String)) (hmap' : String → List String)
      (data' : List (String × List String)) (sn k : String),
      update_headers_steps name b hmap data steps = .ok (hmap', data') →
      k ∈ hmap sn → k ∈ hmap' sn := by
  intro steps
  induction steps with
  | nil =>
    intro hmap data hmap' data' sn k h hk
    unfold update_headers_steps at h
    simp only [Except.ok.injEq, Prod.mk.injEq] at h
    rw [← h.1]
    exact hk
  | cons s ss ih =>
    intro hmap data hmap' data' sn k h hk
    unfold update_headers_steps at h
    cases hf : format_sheet_name name s with
    | none => rw [hf] at h; simp at h
    | some sn1 =>
      rw [hf] at h
      try dsimp only at h
      cases hd : dictGet b.steps s with
      | none => rw [hd] at h; simp at h
      | some osi =>
        rw [hd] at h
        try dsimp only at h
        cases osi with
        | none => simp at h
        | some si =>
          try dsimp only at h
          refine ih _ _ _ _ sn k h ?_
          unfold updMap
          split
          · rename_i hsn
            subst hsn
            exact headersForStep_mem_mono _ _ k hk
          · exact hk

theorem uhs_estab (name : String) (b : BotInfo) :
    ∀ (steps : List String) (hmap : String → List String)
      (data : List (String × List String)) (hmap' : String → List String)
      (data' : List (String × List String)) (step sn : String) (si : StepInfo),
      update_headers_steps name b hmap data steps = .ok (hmap', data') →
      step ∈ steps → format_sheet_name name step = some sn →
      dictGet b.steps step = some (some si) →
      (∀ c ∈ REQUIRED_COLUMNS, c ∈ hmap' sn) ∧ (∀ kv ∈ si, kv.1 ∈ hmap' sn) := by
  intro steps
  induction steps with
  | nil =>
    intro hmap data hmap' data' step sn si _ hmem
    cases hmem
  | cons s ss ih =>
    intro hmap data hmap' data' step sn si h hmem hfmt hdict
    unfold update_headers_steps at h
    cases hf : format_sheet_name name s with
    | none => rw [hf] at h; simp at h
    | some sn1 =>
      rw [hf] at h
      try dsimp only at h
      cases hd : dictGet b.steps s with
      | none => rw [hd] at h; simp at h
      | some osi =>
        rw [hd] at h
        try dsimp only at h
        cases osi with
        | none => simp at h
        | some si1 =>
          try dsimp only at h
          rcases List.mem_cons.mp hmem with heq | hmem'
          · subst heq
            rw [hfmt] at hf
            rw [hdict] at hd
            simp only [Option.some.injEq] at hf hd
            subst hf
            subst hd
            constructor
            · intro c hc
              exact uhs_mono name b ss _ _ _ _ sn c h
                (by unfold updMap; rw [if_pos rfl]
                    exact headersForStep_mem_required _ _ c hc)
            · intro kv hkv
              exact uhs_mono name b ss _ _ _ _ sn kv.1 h
                (by unfold updMap; rw [if_pos rfl]
                    exact headersForStep_mem_keys _ _ kv.1 (List.mem_map_of_mem _ hkv))
          · exact ih _ _ _ _ step sn si h hmem' hfmt hdict

theorem uhs_count (name : String) (b : BotInfo) :
    ∀ (steps : List String) (hmap : String → List String)
      (data : List (String × List String)) (hmap' : String → List String)
      (data' : List (String × List String)) (sn k : String),
      update_headers_steps name b hmap data steps = .ok (hmap', data') →
      ((hmap' sn).count k) ≤ max ((hmap sn).count k) 1 := by
  intro steps
  induction steps with
  | nil =>
    intro hmap data hmap' data' sn k h
    unfold update_headers_steps at h
    simp only [Except.ok.injEq, Prod.mk.injEq] at h
    rw [← h.1]
    exact le_max_left _ _
  | cons s ss ih =>
    intro hmap data hmap' data' sn k h
    unfold update_headers_steps at h
    cases hf : format_sheet_name name s with
    | none => rw [hf] at h; simp at h
    | some sn1 =>
      rw [hf] at h
      try dsimp only at h
      cases hd : dictGet b.steps s with
      | none => rw [hd] at h; simp at h
      | some osi =>
        rw [hd] at h
        try dsimp only at h
        cases osi with
        | none => simp at h
        | some si =>
          try dsimp only at h
          refine le_trans (ih _ _ _ _ sn k h) ?_
          apply max_le
          · unfold updMap
            split
            · rename_i hsn
              subst hsn
              exact headersForStep_count _ _ k
            · exact le_max_left _ _
          · exact le_max_right _ _

theorem uhp_mono : ∀ (info : List (String × BotInfo)) (hmap : String → List String)
    (data : List (String × List String)) (hmap' : String → List String)
    (data' : List (String × List String)) (sn k : String),
    update_headers_pairs hmap data info = .ok (hmap', data') →
    k ∈ hmap sn → k ∈ hmap' sn := by
  intro info
  induction info with
  | nil =>
    intro hmap data hmap' data' sn k h hk
    unfold update_headers_pairs at h
    simp only [Except.ok.injEq, Prod.mk.injEq] at h
    rw [← h.1]
    exact hk
  | cons p rest ih =>
    intro hmap data hmap' data' sn k h hk
    rcases p with ⟨name, b⟩
    unfold update_headers_pairs at h
    cases hs : update_headers_steps name b hmap data b.step_names with
    | error e => rw [hs] at h; simp at h
    | ok q =>
      rcases q with ⟨hmap1, data1⟩
      rw [hs] at h
      try dsimp only at h
      exact ih _ _ _ _ sn k h (uhs_mono name b _ _ _ _ _ sn k hs hk)

theorem uhp_estab : ∀ (info : List (String × BotInfo)) (hmap : String → List String)
    (data : List (String × List String)) (hmap' : String → List String)
    (data' : List (String × List String)) (name : String) (b : BotInfo)
    (step sn : String) (si : StepInfo),
    update_headers_pairs hmap data info = .ok (hmap', data') →
    (name, b) ∈ info → step ∈ b.step_names →
    format_sheet_name name step = some sn →
    dictGet b.steps step = some (some si) →
    (∀ c ∈ REQUIRED_COLUMNS, c ∈ hmap' sn) ∧ (∀ kv ∈ si, kv.1 ∈ hmap' sn) := by
  intro info
  induction info with
  | nil =>
    intro hmap data hmap' data' name b step sn si _ hmem
    cases hmem
  | cons p rest ih =>
    intro hmap data hmap' data' name b step sn si h hmem hstep hfmt hdict
    rcases p with ⟨n1, b1⟩
    unfold update_headers_pairs at h
    cases hs : update_headers_steps n1 b1 hmap data b1.step_names with
    | error e => rw [hs] at h; simp at h
    | ok q =>
      rcases q with ⟨hmap1, data1⟩
      rw [hs] at h
      try dsimp only at h
      rcases List.mem_cons.mp hmem with heq | hmem'
      · simp only [Prod.mk.injEq] at heq
        obtain ⟨h1, h2⟩ := heq
        subst h1
        subst h2
        obtain ⟨hr, hk⟩ := uhs_estab name b b.step_names _ _ _ _ step sn si hs hstep hfmt hdict
        exact ⟨fun c hc => uhp_mono rest _ _ _ _ sn c h (hr c hc),
               fun kv hkv => uhp_mono rest _ _ _ _ sn kv.1 h (hk kv hkv)⟩
      · exact ih _ _ _ _ name b step sn si h hmem' hstep hfmt hdict

theorem uhp_count : ∀ (info : List (String × BotInfo)) (hmap : String → List String)
    (data : List (String × List String)) (hmap' : String → List String)
    (data' : List (String × List String)) (sn k : String),
    update_headers_pairs hmap data info = .ok (hmap', data') →
    ((hmap' sn).count k) ≤ max ((hmap sn).count k) 1 := by
  intro info
  induction info with
  | nil =>
    intro hmap data hmap' data' sn k h
    unfold update_headers_pairs at h
    simp only [Except.ok.injEq, Prod.mk.injEq] at h
    rw [← h.1]
    exact le_max_left _ _
  | cons p rest ih =>
    intro hmap data hmap' data' sn k h
    rcases p with ⟨name, b⟩
    unfold update_headers_pairs at h
    cases hs : update_headers_steps name b hmap data b.step_names with
    | error e => rw [hs] at h; simp at h
    | ok q =>
      rcases q with ⟨hmap1, data1⟩
      rw [hs] at h
      try dsimp only at h
      refine le_trans (ih _ _ _ _ sn k h) ?_
      apply max_le
      · exact uhs_count name b _ _ _ _ _ sn k hs
      · exact le_max_right _ _

/-- **C1 (confirmed).** After `update_headers` returns, for every bot in the
info struct and every step in that bot's `step_names`, the header list of the
corresponding sheet contains every `REQUIRED_COLUMNS` column and every key of
the parsed step record, and each key occurs in the updated headers at most
once beyond its occurrences in the fetched headers (no duplicate is appended
for a key already present). -/
theorem spec_C1 (hmap : String → List String) (data0 : List (String × List String))
    (info : List (String × BotInfo)) (h' : String → List String)
    (data : List (String × List String))
    (hok : update_headers_pairs hmap data0 info = .ok (h', data)) :
    (∀ name b step sn si, (name, b) ∈ info → step ∈ b.step_names →
      format_sheet_name name step = some sn →
      dictGet b.steps step = some (some si) →
      (∀ c ∈ REQUIRED_COLUMNS, c ∈ h' sn) ∧ (∀ kv ∈ si, kv.1 ∈ h' sn))
    ∧ (∀ sn k, ((h' sn).count k) ≤ max (((hmap sn).count k)) 1) :=
  ⟨fun name b step sn si hmem hstep hfmt hdict =>
     uhp_estab info hmap data0 h' data name b step sn si hok hmem hstep hfmt hdict,
   fun sn k => uhp_count info hmap data0 h' data sn k hok⟩

/-- Witness for `spec_C1`: one bot with one step whose record has one key. -/
theorem spec_C1_witness :
    update_headers_pairs (fun _ => []) []
        [("B", ⟨"bn", "bl", none, none, none, none, ["angle_x"],
          [("angle_x", some [("Passed", CellVal.intV 1)])]⟩)] =
      .ok (updMap (fun _ => [])
             " B" ["build_link", "time", "date", "revision", "angle_revision", "Passed"],
           [(" B", ["build_link", "time", "date", "revision", "angle_revision", "Passed"])]) ∧
    ((∀ name b step sn si,
        (name, b) ∈ ([("B", (⟨"bn", "bl", none, none, none, none, ["angle_x"],
            [("angle_x", some [("Passed", CellVal.intV 1)])]⟩ : BotInfo))]) →
        step ∈ b.step_names →
        format_sheet_name name step = some sn →
        dictGet b.steps step = some (some si) →
        (∀ c ∈ REQUIRED_COLUMNS,
          c ∈ updMap (fun _ => [])
            " B" ["build_link", "time", "date", "revision", "angle_revision", "Passed"] sn) ∧
        (∀ kv ∈ si,
          kv.1 ∈ updMap (fun _ => [])
            " B" ["build_link", "time", "date", "revision", "angle_revision", "Passed"] sn))
      ∧ (∀ sn k,
          ((updMap (fun _ => [])
            " B" ["build_link", "time", "date", "revision", "angle_revision", "Passed"] sn).count k) ≤
            max ((([] : List String).count k)) 1)) := by
  refine ⟨by rfl, ?_⟩
  exact spec_C1 (fun _ => []) []
    [("B", ⟨"bn", "bl", none, none, none, none, ["angle_x"],
      [("angle_x", some [("Passed", CellVal.intV 1)])]⟩)]
    (updMap (fun _ => [])
      " B" ["build_link", "time", "date", "revision", "angle_revision", "Passed"])
    [(" B", ["build_link", "time", "date", "revision", "angle_revision", "Passed"])]
    (by rfl)

/-! ### Trace lemmas for the bot loop -/

theorem runSteps_trace (w : World) (build : String) :
    ∀ names, ∃ pre : List String,
      (runSteps w build names).1 = pre.map (Event.bbLog build) := by
  intro names
  induction names with
  | nil => exact ⟨[], rfl⟩
  | cons s ss ih =>
    unfold runSteps
    cases hg : get_step_info_core (w.bb_log build s).2 (w.bb_log build s).1 with
    | error e => exact ⟨[s], rfl⟩
    | ok osi =>
      obtain ⟨pre, hp⟩ := ih
      rcases hr : runSteps w build ss with ⟨evs, r⟩
      rw [hr] at hp
      try dsimp only at hp
      exact ⟨s :: pre, by simp [hp]⟩

theorem get_bot_info_trace (w : World) (bn : String) :
    (get_bot_info w bn).1 = [Event.bbLs bn] ∨
    ∃ (build : String) (steps : List String), (get_bot_info w bn).1 =
      Event.bbLs bn :: Event.bbGetSteps build :: steps.map (Event.bbLog build) := by
  unfold get_bot_info
  cases hg : get_latest_success_build_info_core bn (w.bb_ls bn).2 (w.bb_ls bn).1 w.today with
  | error e => exact Or.inl rfl
  | ok bi =>
    try dsimp only
    cases hsn : get_step_names_core (w.bb_steps bi.build_name).2 (w.bb_steps bi.build_name).1 with
    | error e => exact Or.inr ⟨bi.build_name, [], rfl⟩
    | ok names =>
      try dsimp only
      obtain ⟨pre, hp⟩ := runSteps_trace w bi.build_name names
      rcases hr : runSteps w bi.build_name names with ⟨evs, r⟩
      rw [hr] at hp
      try dsimp only at hp
      cases r with
      | error e => exact Or.inr ⟨bi.build_name, pre, by simp [hp]⟩
      | ok steps => exact Or.inr ⟨bi.build_name, pre, by simp [hp]⟩

theorem gbi_filterMap_ls (w : World) (bn : String) :
    (get_bot_info w bn).1.filterMap evLsBot = [bn] := by
  rcases get_bot_info_trace w bn with h | ⟨build, steps, h⟩ <;> rw [h]
  · rfl
  · simp only [List.filterMap_cons]
    rw [List.filterMap_map]
    simp [evLsBot, Function.comp]

theorem gbi_count_logError (w : World) (bn : String) :
    (get_bot_info w bn).1.count Event.logError = 0 := by
  rcases get_bot_info_trace w bn with h | ⟨build, steps, h⟩ <;> rw [h] <;>
    rw [List.count_eq_zero] <;> intro hmem
  · simp at hmem
  · simp only [List.mem_cons] at hmem
    rcases hmem with h1 | h1 | h1
    · cases h1
    · cases h1
    · obtain ⟨s, _, h2⟩ := List.mem_map.mp h1
      cases h2

theorem gbi_all_bb (w : World) (bn : String) :
    ∀ e ∈ (get_bot_info w bn).1, isBbEvent e = true := by
  rcases get_bot_info_trace w bn with h | ⟨build, steps, h⟩ <;> rw [h] <;> intro e hmem
  · simp at hmem
    subst hmem
    rfl
  · simp only [List.mem_cons] at hmem
    rcases hmem with h1 | h1 | h1
    · subst h1; rfl
    · subst h1; rfl
    · obtain ⟨s, _, h2⟩ := List.mem_map.mp h1
      rw [← h2]
      rfl

theorem processBots_ls (w : World) : ∀ names,
    (processBots w names).1.filterMap evLsBot =
      names.map (fun b => BOT_NAME_PREFIX_C ++ b) := by
  intro names
  induction names with
  | nil => rfl
  | cons b bs ih =>
    unfold processBots
    rcases hg : get_bot_info w (BOT_NAME_PREFIX_C ++ b) with ⟨ev, r⟩
    rcases hp : processBots w bs with ⟨evs, infos⟩
    rw [hp] at ih
    have hev : ev.filterMap evLsBot = [BOT_NAME_PREFIX_C ++ b] := by
      have h2 := gbi_filterMap_ls w (BOT_NAME_PREFIX_C ++ b)
      rw [hg] at h2
      exact h2
    cases r with
    | ok bi =>
      try dsimp only
      rw [List.filterMap_append, hev, ih]
      rfl
    | error e =>
      try dsimp only
      rw [List.filterMap_append, hev]
      simp only [List.filterMap_cons]
      rw [ih]
      rfl

theorem processBots_infos (w : World) : ∀ names,
    (processBots w names).2 = names.filterMap (fun b =>
      match (get_bot_info w (BOT_NAME_PREFIX_C ++ b)).2 with
      | .ok bi => some (b, bi)
      | .error _ => none) := by
  intro names
  induction names with
  | nil => rfl
  | cons b bs ih =>
    unfold processBots
    rcases hg : get_bot_info w (BOT_NAME_PREFIX_C ++ b) with ⟨ev, r⟩
    rcases hp : processBots w bs with ⟨evs, infos⟩
    rw [hp] at ih
    rw [List.filterMap_cons, hg]
    cases r with
    | ok bi =>
      try dsimp only
      rw [← ih]
    | error e =>
      try dsimp only
      rw [← ih]

theorem processBots_count (w : World) : ∀ names,
    (processBots w names).1.count Event.logError =
      (names.filter (fun b =>
        !okB (get_bot_info w (BOT_NAME_PREFIX_C ++ b)).2)).length := by
  intro names
  induction names with
  | nil => rfl
  | cons b bs ih =>
    unfold processBots
    rcases hg : get_bot_info w (BOT_NAME_PREFIX_C ++ b) with ⟨ev, r⟩
    rcases hp : processBots w bs with ⟨evs, infos⟩
    rw [hp] at ih
    have hev : ev.count Event.logError = 0 := by
      have h2 := gbi_count_logError w (BOT_NAME_PREFIX_C ++ b)
      rw [hg] at h2
      exact h2
    rw [List.filter_cons, hg]
    cases r with
    | ok bi =>
      try dsimp only
      rw [List.count_append, hev, ih]
      simp [okB]
    | error e =>
      try dsimp only
      rw [List.count_append, hev]
      simp only [List.count_cons]
      rw [ih]
      simp [okB]

/-! ### Lemmas on `update_values` -/

theorem rowValue_present (b : BotInfo) (si : StepInfo) (key : String) :
    rowValue b (some (some si)) key = .ok (rowSpecVal b si key) := by
  unfold rowValue rowSpecVal
  split <;> rfl

theorem buildRow_present (b : BotInfo) (si : StepInfo) :
    ∀ keys, buildRow b (some (some si)) keys = .ok (keys.map (rowSpecVal b si)) := by
  intro keys
  induction keys with
  | nil => rfl
  | cons k ks ih =>
    unfold buildRow
    rw [rowValue_present, ih]
    rfl

theorem buildRow_ok (b : BotInfo) (osi : Option (Option StepInfo)) :
    ∀ (keys : List String) (row : List CellVal), buildRow b osi keys = .ok row →
      row.length = keys.length ∧
      ∀ i key, keys.get? i = some key →
        ∃ v, rowValue b osi key = .ok v ∧ row.get? i = some v := by
  intro keys
  induction keys with
  | nil =>
    intro row h
    unfold buildRow at h
    simp only [Except.ok.injEq] at h
    subst h
    exact ⟨rfl, fun i key hk => by simp at hk⟩
  | cons k ks ih =>
    intro row h
    unfold buildRow at h
    cases hv : rowValue b osi k with
    | error e => rw [hv] at h; simp at h
    | ok v =>
      rw [hv] at h
      cases hb : buildRow b osi ks with
      | error e => rw [hb] at h; simp [Except.map] at h
      | ok row' =>
        rw [hb] at h
        simp only [Except.map, Except.ok.injEq] at h
        subst h
        obtain ⟨hlen, hidx⟩ := ih row' hb
        refine ⟨by simp [hlen], ?_⟩
        intro i key hk
        cases i with
        | zero =>
          simp only [List.get?] at hk
          simp only [Option.some.injEq] at hk
          subst hk
          exact ⟨v, hv, rfl⟩
        | succ j =>
          simp only [List.get?] at hk
          obtain ⟨u, hu1, hu2⟩ := hidx j key hk
          exact ⟨u, hu1, by simpa using hu2⟩

theorem rowValue_cases (b : BotInfo) (osi : Option (Option StepInfo))
    (key : String) (v : CellVal) (h : rowValue b osi key = .ok v) :
    ((key ∈ REQUIRED_COLUMNS ∧ (botGetReq b key).isSome = true) →
      some v = botGetReq b key) ∧
    ((key ∉ REQUIRED_COLUMNS ∨ botGetReq b key = none) →
      ∃ si, osi = some (some si) ∧ v = (dictGet si key).getD (CellVal.strV "")) := by
  unfold rowValue at h
  split at h
  · rename_i hcond
    simp only [Bool.and_eq_true, decide_eq_true_eq] at hcond
    obtain ⟨hsome, hreq⟩ := hcond
    simp only [Except.ok.injEq] at h
    constructor
    · intro _
      obtain ⟨u, hu⟩ := Option.isSome_iff_exists.mp hsome
      rw [hu] at h ⊢
      simp only [Option.getD_some] at h
      rw [h]
    · intro hor
      rcases hor with hor | hor
      · exact absurd hreq hor
      · rw [hor] at hsome
        simp at hsome
  · rename_i hcond
    simp only [Bool.and_eq_true, decide_eq_true_eq, not_and] at hcond
    constructor
    · intro ⟨hreq, hsome⟩
      exact absurd hreq (hcond hsome)
    · intro _
      cases osi with
      | none => simp at h
      | some o =>
        cases o with
        | none => simp at h
        | some si =>
          simp only [Except.ok.injEq] at h
          exact ⟨si, rfl, h.symm⟩

theorem uvs_spec (w : World) (hmap : String → List String) (name : String)
    (b : BotInfo) :
    ∀ steps, (∀ s ∈ steps, (format_sheet_name name s).isSome = true) →
      (∀ s ∈ steps, ∃ si, dictGet b.steps s = some (some si)) →
      update_values_steps w hmap name b steps =
        (steps.flatMap (specStepEvents w hmap name b), .ok ()) := by
  intro steps
  induction steps with
  | nil => intro _ _; rfl
  | cons s ss ih =>
    intro hf hsi
    obtain ⟨sn, hsn⟩ := Option.isSome_iff_exists.mp (hf s (by simp))
    obtain ⟨si, hsi1⟩ := hsi s (by simp)
    unfold update_values_steps
    rw [hsn]
    try dsimp only
    rw [hsi1, buildRow_present]
    try dsimp only
    rw [ih (fun s' hs' => hf s' (by simp [hs'])) (fun s' hs' => hsi s' (by simp [hs']))]
    have hspec : specStepEvents w hmap name b s =
        Event.appendRow sn ((hmap sn).map (rowSpecVal b si)) ::
          (match w.values_append sn ((hmap sn).map (rowSpecVal b si)) with
           | .ok _ => []
           | .error _ => [Event.logWarning]) := by
      unfold specStepEvents
      rw [hsn, hsi1]
    rw [List.flatMap_cons, hspec]
    cases happ : w.values_append sn ((hmap sn).map (rowSpecVal b si)) with
    | ok u => rfl
    | error m => rfl

theorem uv_spec (w : World) (hmap : String → List String) :
    ∀ info, fmtOkB info = true → stepsPresentB info = true →
      update_values w hmap info = (specAppendEvents w hmap info, .ok ()) := by
  intro info
  induction info with
  | nil => intro _ _; rfl
  | cons p rest ih =>
    intro hf hsi
    rcases p with ⟨name, b⟩
    unfold fmtOkB at hf
    unfold stepsPresentB at hsi
    simp only [List.all_cons, Bool.and_eq_true] at hf hsi
    have hf1 : ∀ s ∈ b.step_names, (format_sheet_name name s).isSome = true := by
      have := hf.1
      rw [List.all_eq_true] at this
      intro s hs
      simpa using this s hs
    have hsi1 : ∀ s ∈ b.step_names, ∃ si, dictGet b.steps s = some (some si) := by
      have := hsi.1
      rw [List.all_eq_true] at this
      intro s hs
      have h2 := this s hs
      cases hd : dictGet b.steps s with
      | none => rw [hd] at h2; simp at h2
      | some o =>
        cases o with
        | none => rw [hd] at h2; simp at h2
        | some si => exact ⟨si, rfl⟩
    unfold update_values
    rw [uvs_spec w hmap name b b.step_names hf1 hsi1]
    try dsimp only
    rw [ih (by unfold fmtOkB; exact hf.2) (by unfold stepsPresentB; exact hsi.2)]
    unfold specAppendEvents
    rw [List.flatMap_cons]

theorem uvs_mem (w : World) (hmap : String → List String) (name : String)
    (b : BotInfo) :
    ∀ (steps : List String) (sn : String) (row : List CellVal),
      Event.appendRow sn row ∈ (update_values_steps w hmap name b steps).1 →
      ∃ s, s ∈ steps ∧ format_sheet_name name s = some sn ∧
        buildRow b (dictGet b.steps s) (hmap sn) = .ok row := by
  intro steps
  induction steps with
  | nil => intro sn row h; simp [update_values_steps] at h
  | cons s ss ih =>
    intro sn row h
    unfold update_values_steps at h
    cases hf : format_sheet_name name s with
    | none => rw [hf] at h; simp at h
    | some sn1 =>
      rw [hf] at h
      try dsimp only at h
      cases hb : buildRow b (dictGet b.steps s) (hmap sn1) with
      | error e => rw [hb] at h; simp at h
      | ok row1 =>
        rw [hb] at h
        try dsimp only at h
        cases happ : w.values_append sn1 row1 with
        | ok u =>
          rw [happ] at h
          try dsimp only at h
          simp only [List.mem_cons] at h
          rcases h with h | h
          · simp only [Event.appendRow.injEq] at h
            obtain ⟨h1, h2⟩ := h
            subst h1
            subst h2
            exact ⟨s, by simp, hf, hb⟩
          · obtain ⟨s', hs1, hs2, hs3⟩ := ih sn row h
            exact ⟨s', by simp [hs1], hs2, hs3⟩
        | error m =>
          rw [happ] at h
          try dsimp only at h
          simp only [List.mem_cons] at h
          rcases h with h | h | h
          · simp only [Event.appendRow.injEq] at h
            obtain ⟨h1, h2⟩ := h
            subst h1
            subst h2
            exact ⟨s, by simp, hf, hb⟩
          · cases h
          · obtain ⟨s', hs1, hs2, hs3⟩ := ih sn row h
            exact ⟨s', by simp [hs1], hs2, hs3⟩

theorem uv_mem (w : World) (hmap : String → List String) :
    ∀ (info : List (String × BotInfo)) (sn : String) (row : List CellVal),
      Event.appendRow sn row ∈ (update_values w hmap info).1 →
      ∃ name b, (name, b) ∈ info ∧ ∃ s, s ∈ b.step_names ∧
        format_sheet_name name s = some sn ∧
        buildRow b (dictGet b.steps s) (hmap sn) = .ok row := by
  intro info
  induction info with
  | nil => intro sn row h; simp [update_values] at h
  | cons p rest ih =>
    intro sn row h
    rcases p with ⟨name, b⟩
    unfold update_values at h
    rcases hs : update_values_steps w hmap name b b.step_names with ⟨ev, r⟩
    rw [hs] at h
    cases r with
    | error e =>
      try dsimp only at h
      have hm : Event.appendRow sn row ∈ (update_values_steps w hmap name b b.step_names).1 := by
        rw [hs]
        exact h
      obtain ⟨s, h1, h2, h3⟩ := uvs_mem w hmap name b b.step_names sn row hm
      exact ⟨name, b, by simp, s, h1, h2, h3⟩
    | ok u =>
      try dsimp only at h
      rw [List.mem_append] at h
      rcases h with h | h
      · have hm : Event.appendRow sn row ∈ (update_values_steps w hmap name b b.step_names).1 := by
          rw [hs]
          exact h
        obtain ⟨s, h1, h2, h3⟩ := uvs_mem w hmap name b b.step_names sn row hm
        exact ⟨name, b, by simp, s, h1, h2, h3⟩
      · obtain ⟨name', b', h1, h2⟩ := ih sn row h
        exact ⟨name', b', by simp [h1], h2⟩

/-- **C9 (confirmed).** Every row appended by `update_values` has exactly one
entry per column of its sheet's header list, positionally aligned: the entry
for a key in `REQUIRED_COLUMNS` that is present in the bot-level record is
the bot-level value; otherwise it is the step-level value when the key is in
the step's record, and `''` when in neither. -/
theorem spec_C9 (w : World) (hmap : String → List String)
    (info : List (String × BotInfo)) (sn : String) (row : List CellVal)
    (hmem : Event.appendRow sn row ∈ (update_values w hmap info).1) :
    ∃ name b s, (name, b) ∈ info ∧ s ∈ b.step_names ∧
      format_sheet_name name s = some sn ∧
      row.length = (hmap sn).length ∧
      ∀ i key, (hmap sn).get? i = some key →
        ((key ∈ REQUIRED_COLUMNS ∧ (botGetReq b key).isSome = true) →
          row.get? i = botGetReq b key) ∧
        ((key ∉ REQUIRED_COLUMNS ∨ botGetReq b key = none) →
          ∃ si, dictGet b.steps s = some (some si) ∧
            row.get? i = some ((dictGet si key).getD (CellVal.strV ""))) := by
  obtain ⟨name, b, hmemb, s, hstep, hfmt, hbr⟩ := uv_mem w hmap info sn row hmem
  obtain ⟨hlen, hidx⟩ := buildRow_ok b (dictGet b.steps s) (hmap sn) row hbr
  refine ⟨name, b, s, hmemb, hstep, hfmt, hlen, ?_⟩
  intro i key hk
  obtain ⟨v, hv1, hv2⟩ := hidx i key hk
  obtain ⟨hc1, hc2⟩ := rowValue_cases b (dictGet b.steps s) key v hv1
  constructor
  · intro hcase
    rw [hv2, hc1 hcase]
  · intro hcase
    obtain ⟨si, ho, hveq⟩ := hc2 hcase
    exact ⟨si, ho, by rw [hv2, hveq]⟩

/-- Witness for `spec_C9`: a three-column sheet exercising all three entry
kinds (bot-level `time`, step-level `Passed`, absent `zz`). -/
theorem spec_C9_witness :
    Event.appendRow " B" [CellVal.strV "12:00:00", CellVal.intV 1, CellVal.strV ""] ∈
      (update_values trivialWorld (fun _ => ["time", "Passed", "zz"]) [("B", botB)]).1 ∧
    ∃ name b s, (name, b) ∈ [("B", botB)] ∧ s ∈ BotInfo.step_names b ∧
      format_sheet_name name s = some " B" ∧
      ([CellVal.strV "12:00:00", CellVal.intV 1, CellVal.strV ""].length =
        ((fun _ => ["time", "Passed", "zz"]) " B" : List String).length) ∧
      ∀ i key, (((fun _ => ["time", "Passed", "zz"]) " B" : List String).get? i = some key) →
        ((key ∈ REQUIRED_COLUMNS ∧ (botGetReq b key).isSome = true) →
          [CellVal.strV "12:00:00", CellVal.intV 1, CellVal.strV ""].get? i = botGetReq b key) ∧
        ((key ∉ REQUIRED_COLUMNS ∨ botGetReq b key = none) →
          ∃ si, dictGet b.steps s = some (some si) ∧
            [CellVal.strV "12:00:00", CellVal.intV 1, CellVal.strV ""].get? i =
              some ((dictGet si key).getD (CellVal.strV ""))) := by
  refine ⟨by decide, ?_⟩
  exact spec_C9 trivialWorld (fun _ => ["time", "Passed", "zz"]) [("B", botB)]
    " B" [CellVal.strV "12:00:00", CellVal.intV 1, CellVal.strV ""] (by decide)

/-- **C2 (confirmed).** Every bot in `BOT_NAMES` is queried even when earlier
bots fail: the `bb ls` queries of the bot loop are exactly the prefixed
`BOT_NAMES` in order; the info struct holds exactly the bots whose fetch
succeeded; each failed fetch logs one error.  In `update_values`, every
bot/step pair's row is append-attempted even when earlier appends fail, a
failing `append_values` logs a warning and is skipped, and the loop completes
normally. -/
theorem spec_C2 (w : World) :
    ((processBots w BOT_NAMES).1.filterMap evLsBot =
      BOT_NAMES.map (fun b => BOT_NAME_PREFIX_C ++ b))
    ∧ ((processBots w BOT_NAMES).2 =
      BOT_NAMES.filterMap (fun b =>
        match (get_bot_info w (BOT_NAME_PREFIX_C ++ b)).2 with
        | .ok bi => some (b, bi)
        | .error _ => none))
    ∧ ((processBots w BOT_NAMES).1.count Event.logError =
      (BOT_NAMES.filter (fun b =>
        !okB (get_bot_info w (BOT_NAME_PREFIX_C ++ b)).2)).length)
    ∧ (∀ hmap info, fmtOkB info = true → stepsPresentB info = true →
      update_values w hmap info = (specAppendEvents w hmap info, .ok ())) :=
  ⟨processBots_ls w BOT_NAMES, processBots_infos w BOT_NAMES,
   processBots_count w BOT_NAMES, fun hmap info hf hsi => uv_spec w hmap info hf hsi⟩

/-- Witness for `spec_C2`: the `update_values` clause applied to a concrete
info struct. -/
theorem spec_C2_witness :
    (fmtOkB [("B", botB)] = true ∧ stepsPresentB [("B", botB)] = true) ∧
    update_values trivialWorld (fun _ => ["time"]) [("B", botB)] =
      (specAppendEvents trivialWorld (fun _ => ["time"]) [("B", botB)], .ok ()) := by
  refine ⟨⟨by decide, by decide⟩, ?_⟩
  exact (spec_C2 trivialWorld).2.2.2 (fun _ => ["time"]) [("B", botB)]
    (by decide) (by decide)

/-! ### Event classification of the spreadsheet phase -/

theorem bb_not_sheet (e : Event) (h : isBbEvent e = true) : isSheetEvent e = false := by
  cases e <;> simp [isBbEvent, isSheetEvent] at h ⊢

theorem sheet_not_bb (e : Event) (h : isSheetEvent e = true) : isBbEvent e = false := by
  cases e <;> simp [isBbEvent, isSheetEvent] at h ⊢

theorem uvs_events (w : World) (hmap : String → List String) (name : String)
    (b : BotInfo) : ∀ steps, ∀ e ∈ (update_values_steps w hmap name b steps).1,
      isBbEvent e = false ∧ isAddSheets e = false := by
  intro steps
  induction steps with
  | nil => intro e he; simp [update_values_steps] at he
  | cons s ss ih =>
    intro e he
    unfold update_values_steps at he
    cases hf : format_sheet_name name s with
    | none => rw [hf] at he; simp at he
    | some sn =>
      rw [hf] at he
      try dsimp only at he
      cases hb : buildRow b (dictGet b.steps s) (hmap sn) with
      | error e2 => rw [hb] at he; simp at he
      | ok row =>
        rw [hb] at he
        try dsimp only at he
        cases happ : w.values_append sn row with
        | ok u =>
          rw [happ] at he
          try dsimp only at he
          rcases List.mem_cons.mp he with h1 | h1
          · subst h1; exact ⟨rfl, rfl⟩
          · exact ih e h1
        | error m =>
          rw [happ] at he
          try dsimp only at he
          rcases List.mem_cons.mp he with h1 | h1
          · subst h1; exact ⟨rfl, rfl⟩
          · rcases List.mem_cons.mp h1 with h2 | h2
            · subst h2; exact ⟨rfl, rfl⟩
            · exact ih e h2

theorem uv_events (w : World) (hmap : String → List String) :
    ∀ info, ∀ e ∈ (update_values w hmap info).1,
      isBbEvent e = false ∧ isAddSheets e = false := by
  intro info
  induction info with
  | nil => intro e he; simp [update_values] at he
  | cons p rest ih =>
    intro e he
    rcases p with ⟨name, b⟩
    unfold update_values at he
    rcases hs : update_values_steps w hmap name b b.step_names with ⟨ev, r⟩
    rw [hs] at he
    cases r with
    | error e2 =>
      try dsimp only at he
      refine uvs_events w hmap name b b.step_names e ?_
      rw [hs]
      exact he
    | ok u =>
      try dsimp only at he
      rcases List.mem_append.mp he with h1 | h1
      · refine uvs_events w hmap name b b.step_names e ?_
        rw [hs]
        exact h1
      · exact ih e h1

theorem uh_events (w : World) (hmap : String → List String)
    (info : List (String × BotInfo)) :
    ∀ e ∈ (update_headers w hmap info).1,
      isBbEvent e = false ∧ isAddSheets e = false := by
  intro e he
  unfold update_headers at he
  cases hp : update_headers_pairs hmap [] info with
  | error e2 => rw [hp] at he; simp at he
  | ok q =>
    rcases q with ⟨h', data⟩
    rw [hp] at he
    try dsimp only at he
    by_cases hd : data = []
    · rw [if_pos hd] at he
      simp at he
    · rw [if_neg hd] at he
      cases hu : w.values_update with
      | ok u =>
        rw [hu] at he
        try dsimp only at he
        simp only [List.mem_singleton] at he
        subst he
        exact ⟨rfl, rfl⟩
      | error m =>
        rw [hu] at he
        try dsimp only at he
        simp only [List.mem_singleton] at he
        subst he
        exact ⟨rfl, rfl⟩

theorem create_mem (w : World) (ns : List String) (e : Event)
    (he : e ∈ (create_sheets_step w ns).1) : e = Event.addSheets ns ∧ ns ≠ [] := by
  unfold create_sheets_step at he
  by_cases hn : ns = []
  · rw [if_pos hn] at he
    simp at he
  · rw [if_neg hn] at he
    cases hb : w.batch_update with
    | ok u =>
      rw [hb] at he
      try dsimp only at he
      simp only [List.mem_singleton] at he
      exact ⟨he, hn⟩
    | error m =>
      rw [hb] at he
      try dsimp only at he
      simp only [List.mem_singleton] at he
      exact ⟨he, hn⟩

theorem get_headers_fst (w : World) (sheet_names : List String) :
    (get_headers w sheet_names).1 = [Event.headersGet sheet_names] := rfl

theorem upd_mem_cases (w : World) (info : List (String × BotInfo)) (e : Event)
    (he : e ∈ (update_spreadsheet w info).1) :
    e = Event.sheetsGet ∨
    (∃ ss sheet_names, w.sheets_get = .ok (some ss) ∧
      get_sheet_names info = .ok sheet_names ∧
      validate_sheets ss sheet_names ≠ [] ∧
      e = Event.addSheets (validate_sheets ss sheet_names)) ∨
    (∃ sheet_names, e = Event.headersGet sheet_names) ∨
    (isBbEvent e = false ∧ isAddSheets e = false) := by
  unfold update_spreadsheet at he
  cases hs : w.sheets_get with
  | error m =>
    rw [hs] at he
    simp only [List.mem_singleton] at he
    exact Or.inl he
  | ok o =>
    rw [hs] at he
    cases o with
    | none =>
      try dsimp only at he
      simp only [List.mem_singleton] at he
      exact Or.inl he
    | some ss =>
      try dsimp only at he
      cases hn : get_sheet_names info with
      | error e2 =>
        rw [hn] at he
        try dsimp only at he
        simp only [List.mem_singleton] at he
        exact Or.inl he
      | ok sheet_names =>
        rw [hn] at he
        try dsimp only at he
        rcases hc : create_sheets_step w (validate_sheets ss sheet_names) with ⟨ev1, r1⟩
        rw [hc] at he
        have hev1 : ∀ e2 ∈ ev1, e2 = Event.addSheets (validate_sheets ss sheet_names) ∧
            validate_sheets ss sheet_names ≠ [] := by
          intro e2 he2
          refine create_mem w (validate_sheets ss sheet_names) e2 ?_
          rw [hc]
          exact he2
        cases r1 with
        | error e1 =>
          try dsimp only at he
          obtain h1 | h1 := List.mem_cons.mp he
          · exact Or.inl h1
          · obtain ⟨h2, h3⟩ := hev1 e h1
            exact Or.inr (Or.inl ⟨ss, sheet_names, rfl, rfl, h3, h2⟩)
        | ok u =>
          try dsimp only at he
          rcases hg : get_headers w sheet_names with ⟨ev2, r2⟩
          rw [hg] at he
          have hev2 : ev2 = [Event.headersGet sheet_names] := by
            have h0 := get_headers_fst w sheet_names
            rw [hg] at h0
            exact h0
          cases r2 with
          | error e2 =>
            try dsimp only at he
            try simp only [List.append_assoc] at he
            obtain h1 | h1 := List.mem_cons.mp he
            · exact Or.inl h1
            obtain h2 | h2 := List.mem_append.mp h1
            · obtain ⟨h3, h4⟩ := hev1 e h2
              exact Or.inr (Or.inl ⟨ss, sheet_names, rfl, rfl, h4, h3⟩)
            · rw [hev2] at h2
              simp only [List.mem_singleton] at h2
              exact Or.inr (Or.inr (Or.inl ⟨sheet_names, h2⟩))
          | ok hmap =>
            try dsimp only at he
            rcases hu : update_headers w hmap info with ⟨ev3, r3⟩
            rw [hu] at he
            have hev3 : ∀ e2 ∈ ev3, isBbEvent e2 = false ∧ isAddSheets e2 = false := by
              intro e2 he2
              refine uh_events w hmap info e2 ?_
              rw [hu]
              exact he2
            cases r3 with
            | error e2 =>
              try dsimp only at he
              try simp only [List.append_assoc] at he
              obtain h1 | h1 := List.mem_cons.mp he
              · exact Or.inl h1
              obtain h2 | h2 := List.mem_append.mp h1
              · obtain ⟨h3, h4⟩ := hev1 e h2
                exact Or.inr (Or.inl ⟨ss, sheet_names, rfl, rfl, h4, h3⟩)
              obtain h3 | h3 := List.mem_append.mp h2
              · rw [hev2] at h3
                simp only [List.mem_singleton] at h3
                exact Or.inr (Or.inr (Or.inl ⟨sheet_names, h3⟩))
              · exact Or.inr (Or.inr (Or.inr (hev3 e h3)))
            | ok h' =>
              try dsimp only at he
              try simp only [List.append_assoc] at he
              obtain h1 | h1 := List.mem_cons.mp he
              · exact Or.inl h1
              obtain h2 | h2 := List.mem_append.mp h1
              · obtain ⟨h3, h4⟩ := hev1 e h2
                exact Or.inr (Or.inl ⟨ss, sheet_names, rfl, rfl, h4, h3⟩)
              obtain h3 | h3 := List.mem_append.mp h2
              · rw [hev2] at h3
                simp only [List.mem_singleton] at h3
                exact Or.inr (Or.inr (Or.inl ⟨sheet_names, h3⟩))
              obtain h4 | h4 := List.mem_append.mp h3
              · exact Or.inr (Or.inr (Or.inr (hev3 e h4)))
              · exact Or.inr (Or.inr (Or.inr (uv_events w h' info e h4)))

theorem upd_no_bb (w : World) (info : List (String × BotInfo)) :
    ∀ e ∈ (update_spreadsheet w info).1, isBbEvent e = false := by
  intro e he
  rcases upd_mem_cases w info e he with h | ⟨ss, names, _, _, _, h⟩ | ⟨names, h⟩ | ⟨h, _⟩
  · subst h; rfl
  · subst h; rfl
  · subst h; rfl
  · exact h

theorem upd_addSheets (w : World) (info : List (String × BotInfo)) (l : List String)
    (hmem : Event.addSheets l ∈ (update_spreadsheet w info).1) :
    ∃ ss sheet_names, w.sheets_get = .ok (some ss) ∧
      get_sheet_names info = .ok sheet_names ∧
      l = validate_sheets ss sheet_names ∧ l ≠ [] := by
  rcases upd_mem_cases w info _ hmem with h | ⟨ss, names, h1, h2, h3, h4⟩ | ⟨names, h⟩ | ⟨_, h⟩
  · simp at h
  · simp only [Event.addSheets.injEq] at h4
    exact ⟨ss, names, h1, h2, h4, by rw [h4]; exact h3⟩
  · simp at h
  · simp [isAddSheets] at h

theorem validate_sheets_mem (ss : Spreadsheet) :
    ∀ (names : List String) (n : String),
      n ∈ validate_sheets ss names ↔ (n ∈ names ∧ sheet_exists ss n = false) := by
  intro names
  induction names with
  | nil => intro n; simp [validate_sheets]
  | cons m ms ih =>
    intro n
    unfold validate_sheets
    by_cases hex : sheet_exists ss m = true
    · rw [if_pos hex, ih n]
      constructor
      · rintro ⟨h1, h2⟩
        exact ⟨by simp [h1], h2⟩
      · rintro ⟨h1, h2⟩
        rcases List.mem_cons.mp h1 with h3 | h3
        · subst h3
          rw [hex] at h2
          cases h2
        · exact ⟨h3, h2⟩
    · rw [if_neg hex]
      constructor
      · intro h1
        rcases List.mem_cons.mp h1 with h3 | h3
        · subst h3
          exact ⟨by simp, by simpa using hex⟩
        · obtain ⟨h4, h5⟩ := (ih n).mp h3
          exact ⟨by simp [h4], h5⟩
      · rintro ⟨h1, h2⟩
        rcases List.mem_cons.mp h1 with h3 | h3
        · subst h3
          simp
        · simp [(ih n).mpr ⟨h3, h2⟩]

theorem upd_creates (w : World) (info : List (String × BotInfo)) (ss : Spreadsheet)
    (sheet_names : List String)
    (h1 : w.sheets_get = .ok (some ss))
    (h2 : get_sheet_names info = .ok sheet_names)
    (h3 : validate_sheets ss sheet_names ≠ []) :
    Event.addSheets (validate_sheets ss sheet_names) ∈ (update_spreadsheet w info).1 := by
  unfold update_spreadsheet
  rw [h1]
  try dsimp only
  rw [h2]
  try dsimp only
  cases hb : w.batch_update with
  | ok u =>
    have hc : create_sheets_step w (validate_sheets ss sheet_names) =
        ([Event.addSheets (validate_sheets ss sheet_names)], .ok ()) := by
      unfold create_sheets_step
      rw [if_neg h3, hb]
    rw [hc]
    try dsimp only
    rcases hg : get_headers w sheet_names with ⟨ev2, r2⟩
    cases r2 with
    | error e => simp
    | ok hmap =>
      try dsimp only
      rcases hu : update_headers w hmap info with ⟨ev3, r3⟩
      cases r3 with
      | error e => simp
      | ok h' => simp
  | error m =>
    have hc : create_sheets_step w (validate_sheets ss sheet_names) =
        ([Event.addSheets (validate_sheets ss sheet_names)], .error (.exception m)) := by
      unfold create_sheets_step
      rw [if_neg h3, hb]
    rw [hc]
    simp

/-- **C5 (confirmed).** `validate_sheets` selects exactly the formatted names
that do not already appear as a sheet title; `update_spreadsheet` issues a
sheet-creation request for exactly that list whenever it is nonempty, never
creates an existing title, and issues no creation request when no names are
missing. -/
theorem spec_C5 :
    (∀ (ss : Spreadsheet) (names : List String) (n : String),
      n ∈ validate_sheets ss names ↔ (n ∈ names ∧ sheet_exists ss n = false))
    ∧ (∀ (w : World) (info : List (String × BotInfo)) (l : List String),
        Event.addSheets l ∈ (update_spreadsheet w info).1 →
        ∃ ss sheet_names, w.sheets_get = .ok (some ss) ∧
          get_sheet_names info = .ok sheet_names ∧
          l = validate_sheets ss sheet_names ∧ l ≠ [])
    ∧ (∀ (w : World) (info : List (String × BotInfo)) (ss : Spreadsheet)
        (sheet_names : List String),
        w.sheets_get = .ok (some ss) → get_sheet_names info = .ok sheet_names →
        validate_sheets ss sheet_names = [] →
        ∀ l, Event.addSheets l ∉ (update_spreadsheet w info).1)
    ∧ (∀ (w : World) (info : List (String × BotInfo)) (ss : Spreadsheet)
        (sheet_names : List String),
        w.sheets_get = .ok (some ss) → get_sheet_names info = .ok sheet_names →
        validate_sheets ss sheet_names ≠ [] →
        Event.addSheets (validate_sheets ss sheet_names) ∈
          (update_spreadsheet w info).1) := by
  refine ⟨fun ss names n => validate_sheets_mem ss names n,
          fun w info l h => upd_addSheets w info l h, ?_,
          fun w info ss sheet_names h1 h2 h3 => upd_creates w info ss sheet_names h1 h2 h3⟩
  intro w info ss sheet_names h1 h2 h3 l hmem
  obtain ⟨ss', names', g1, g2, g3, g4⟩ := upd_addSheets w info l hmem
  rw [h1] at g1
  rw [h2] at g2
  simp only [Except.ok.injEq, Option.some.injEq] at g1 g2
  subst g1
  subst g2
  exact g4 (g3.trans h3)

/-- Witness for `spec_C5`: over an empty spreadsheet, a one-bot info struct
gets its missing sheet requested, and an empty info struct causes no creation
request. -/
theorem spec_C5_witness :
    (trivialWorld.sheets_get = .ok (some ⟨[]⟩) ∧
      get_sheet_names [("B", botB)] = .ok [" B"] ∧
      validate_sheets ⟨[]⟩ [" B"] = [" B"] ∧
      get_sheet_names ([] : List (String × BotInfo)) = .ok [] ∧
      validate_sheets ⟨[]⟩ [] = []) ∧
    Event.addSheets [" B"] ∈ (update_spreadsheet trivialWorld [("B", botB)]).1 ∧
    ∀ l, Event.addSheets l ∉ (update_spreadsheet trivialWorld []).1 := by
  refine ⟨⟨rfl, rfl, rfl, rfl, rfl⟩, ?_, ?_⟩
  · exact spec_C5.2.2.2 trivialWorld [("B", botB)] ⟨[]⟩ [" B"] rfl rfl (by decide)
  · exact fun l => spec_C5.2.2.1 trivialWorld [] ⟨[]⟩ [] rfl rfl rfl l

/-- **C3 (confirmed).** The run exits nonzero exactly when obtaining the
credentials fails or the spreadsheet update fails, and exits 0 otherwise. -/
theorem spec_C3 (w : World) :
    ((mainRun w).2 ≠ 0 ↔ (okB w.auth = false ∨
      okB (update_spreadsheet w (processBots w BOT_NAMES).2).2 = false))
    ∧ ((mainRun w).2 = 0 ↔ (okB w.auth = true ∧
      okB (update_spreadsheet w (processBots w BOT_NAMES).2).2 = true)) := by
  unfold mainRun
  cases ha : w.auth with
  | error m => simp [okB]
  | ok u =>
    try dsimp only
    rcases hp : processBots w BOT_NAMES with ⟨pe, info⟩
    try dsimp only
    rcases hu : update_spreadsheet w info with ⟨se, r⟩
    cases r with
    | error e => simp [okB]
    | ok u2 => simp [okB]

theorem evLsBot_none_of_not_bb (e : Event) (h : isBbEvent e = false) :
    evLsBot e = none := by
  cases e <;> simp [isBbEvent, evLsBot] at h ⊢

/-- **C7 (confirmed).** Once credentials are obtained, a run queries `bb ls`
for exactly the 13 bots of `BOT_NAMES`, in order, each once, each prefixed
with `chromium/ci/`; no other bot is queried, for every world (so the list
does not depend on any input). -/
theorem spec_C7 (w : World) (hauth : w.auth = .ok ()) :
    (mainRun w).1.filterMap evLsBot =
      BOT_NAMES.map (fun b => BOT_NAME_PREFIX_C ++ b)
    ∧ BOT_NAMES.length = 13 := by
  constructor
  · unfold mainRun
    rw [hauth]
    try dsimp only
    rcases hp : processBots w BOT_NAMES with ⟨pe, info⟩
    rcases hu : update_spreadsheet w info with ⟨se, r⟩
    have hse : ∀ e ∈ se, evLsBot e = none := by
      intro e he2
      apply evLsBot_none_of_not_bb
      refine upd_no_bb w info e ?_
      rw [hu]
      exact he2
    have hpe : pe.filterMap evLsBot = BOT_NAMES.map (fun b => BOT_NAME_PREFIX_C ++ b) := by
      have h2 := processBots_ls w BOT_NAMES
      rw [hp] at h2
      exact h2
    have hse2 : se.filterMap evLsBot = [] := List.filterMap_eq_nil_iff.mpr hse
    cases r with
    | error e =>
      try dsimp only
      rw [List.filterMap_append, List.filterMap_append, hpe, hse2]
      simp [evLsBot]
    | ok u =>
      try dsimp only
      rw [List.filterMap_append, hpe, hse2]
      simp
  · rfl

/-- Witness for `spec_C7`. -/
theorem spec_C7_witness :
    trivialWorld.auth = .ok () ∧
    ((mainRun trivialWorld).1.filterMap evLsBot =
      BOT_NAMES.map (fun b => BOT_NAME_PREFIX_C ++ b)
    ∧ BOT_NAMES.length = 13) :=
  ⟨rfl, spec_C7 trivialWorld rfl⟩

/-! ### Pipeline-order lemmas for C6 -/

theorem runSteps_agree (w w' : World) (h3 : w.bb_log = w'.bb_log) (build : String) :
    ∀ names, runSteps w build names = runSteps w' build names := by
  intro names
  induction names with
  | nil => rfl
  | cons s ss ih =>
    unfold runSteps
    rw [h3, ih]

theorem get_bot_info_agree (w w' : World) (hagree : bbAgree w w') (bn : String) :
    get_bot_info w bn = get_bot_info w' bn := by
  obtain ⟨h1, h2, h3, h4⟩ := hagree
  unfold get_bot_info
  simp only [h1, h2, h4, runSteps_agree w w' h3]

theorem processBots_agree (w w' : World) (hagree : bbAgree w w') :
    ∀ names, processBots w names = processBots w' names := by
  intro names
  induction names with
  | nil => rfl
  | cons b bs ih =>
    unfold processBots
    rw [get_bot_info_agree w w' hagree, ih]

theorem processBots_flatMap (w : World) :
    ∀ names, (processBots w names).1 = names.flatMap (botTrace w) := by
  intro names
  induction names with
  | nil => rfl
  | cons b bs ih =>
    unfold processBots
    rcases hg : get_bot_info w (BOT_NAME_PREFIX_C ++ b) with ⟨ev, r⟩
    rcases hp : processBots w bs with ⟨evs, infos⟩
    rw [hp] at ih
    try dsimp only at ih
    rw [List.flatMap_cons]
    cases r with
    | ok bi =>
      try dsimp only
      have hbt : botTrace w b = ev := by
        unfold botTrace
        rw [hg]
      rw [hbt, ih]
    | error e =>
      try dsimp only
      have hbt : botTrace w b = ev ++ [Event.logError] := by
        unfold botTrace
        rw [hg]
      rw [hbt, ih]
      simp [List.append_assoc]

theorem botTrace_no_sheet (w : World) (b : String) :
    ∀ e ∈ botTrace w b, isSheetEvent e = false := by
  intro e he
  unfold botTrace at he
  rcases hg : get_bot_info w (BOT_NAME_PREFIX_C ++ b) with ⟨ev, r⟩
  rw [hg] at he
  have hbb : ∀ e2 ∈ ev, isBbEvent e2 = true := by
    intro e2 he2
    refine gbi_all_bb w (BOT_NAME_PREFIX_C ++ b) e2 ?_
    rw [hg]
    exact he2
  cases r with
  | ok bi =>
    try dsimp only at he
    exact bb_not_sheet e (hbb e he)
  | error e2 =>
    try dsimp only at he
    rcases List.mem_append.mp he with h1 | h1
    · exact bb_not_sheet e (hbb e h1)
    · simp only [List.mem_singleton] at h1
      subst h1
      rfl

theorem processBots_no_sheet (w : World) :
    ∀ names, ∀ e ∈ (processBots w names).1, isSheetEvent e = false := by
  intro names e he
  rw [processBots_flatMap w names] at he
  obtain ⟨b, _, hb⟩ := List.mem_flatMap.mp he
  exact botTrace_no_sheet w b e hb

theorem mainRun_phase (w : World) (hauth : w.auth = .ok ()) :
    ∃ rest, (mainRun w).1 = (processBots w BOT_NAMES).1 ++ rest ∧
      ∀ e ∈ rest, isBbEvent e = false := by
  unfold mainRun
  rw [hauth]
  try dsimp only
  rcases hp : processBots w BOT_NAMES with ⟨pe, info⟩
  try dsimp only
  rcases hu : update_spreadsheet w info with ⟨se, r⟩
  have hse : ∀ e ∈ se, isBbEvent e = false := by
    intro e he
    refine upd_no_bb w info e ?_
    rw [hu]
    exact he
  cases r with
  | error e =>
    refine ⟨se ++ [Event.logError], by simp [List.append_assoc], ?_⟩
    intro e2 he2
    rcases List.mem_append.mp he2 with h1 | h1
    · exact hse e2 h1
    · simp only [List.mem_singleton] at h1
      subst h1
      rfl
  | ok u => exact ⟨se, rfl, hse⟩

/-- **C6 (confirmed).** Once credentials are obtained, the run is a linear
pipeline: the trace is the bot-loop trace followed only by non-`bb` events
(all spreadsheet operations come after all bot info is built); the bot loop
is the concatenation of per-bot segments containing no spreadsheet events;
each bot's segment fetches the build first, then the step list, then the step
logs in order; and the parsing phase reads nothing from the spreadsheet: two
worlds agreeing on the `bb` oracles and the date produce identical bot-loop
results. -/
theorem spec_C6 (w w' : World) (hagree : bbAgree w w') (hauth : w.auth = .ok ()) :
    (∃ rest, (mainRun w).1 = (processBots w BOT_NAMES).1 ++ rest ∧
      ∀ e ∈ rest, isBbEvent e = false)
    ∧ ((processBots w BOT_NAMES).1 = BOT_NAMES.flatMap (botTrace w))
    ∧ (∀ e ∈ (processBots w BOT_NAMES).1, isSheetEvent e = false)
    ∧ (∀ bn, (get_bot_info w bn).1 = [Event.bbLs bn] ∨
        ∃ (build : String) (steps : List String), (get_bot_info w bn).1 =
          Event.bbLs bn :: Event.bbGetSteps build :: steps.map (Event.bbLog build))
    ∧ processBots w BOT_NAMES = processBots w' BOT_NAMES :=
  ⟨mainRun_phase w hauth, processBots_flatMap w BOT_NAMES,
   processBots_no_sheet w BOT_NAMES, fun bn => get_bot_info_trace w bn,
   processBots_agree w w' hagree BOT_NAMES⟩

/-- Witness for `spec_C6`. -/
theorem spec_C6_witness :
    (bbAgree trivialWorld trivialWorld ∧ trivialWorld.auth = .ok ()) ∧
    ((∃ rest, (mainRun trivialWorld).1 = (processBots trivialWorld BOT_NAMES).1 ++ rest ∧
      ∀ e ∈ rest, isBbEvent e = false)
    ∧ ((processBots trivialWorld BOT_NAMES).1 = BOT_NAMES.flatMap (botTrace trivialWorld))
    ∧ (∀ e ∈ (processBots trivialWorld BOT_NAMES).1, isSheetEvent e = false)
    ∧ (∀ bn, (get_bot_info trivialWorld bn).1 = [Event.bbLs bn] ∨
        ∃ (build : String) (steps : List String), (get_bot_info trivialWorld bn).1 =
          Event.bbLs bn :: Event.bbGetSteps build :: steps.map (Event.bbLog build))
    ∧ processBots trivialWorld BOT_NAMES = processBots trivialWorld BOT_NAMES) :=
  ⟨⟨⟨rfl, rfl, rfl, rfl⟩, rfl⟩,
   spec_C6 trivialWorld trivialWorld ⟨rfl, rfl, rfl, rfl⟩ rfl⟩
